import Mathlib

set_option maxRecDepth 16000

/-!
Verification of the HuntEX CSV preprocessing pipeline (`server/preprocess.py`,
with training-time counterparts in `Improved-RF/data.py`).

The pandas data frame is modelled shallowly: a table is a list of column names
together with a list of rows; each row carries the load-time integer index
(`pandas` assigns `0 .. n-1` at `read_csv` and every filtering operation used by
the pipeline — boolean-mask selection, `dropna`, `drop_duplicates` — preserves
these labels) and an association list from column name to an optional rational
value, `none` playing the role of `NaN`.  Numeric comparisons against `NaN`
are `False` in pandas; the option-valued comparison helpers below reproduce
that.  `np.log10` is not expressible on ℚ, so the pipeline is parameterised by
an arbitrary function `L : ℚ → ℚ` standing for `log10`; concrete instantiations
in witnesses use rational points of the real `log10` (powers of ten).
-/

namespace Huntex

/- The Batteries rational arithmetic is `@[irreducible]`; restore the default
transparency inside this file so that concrete pipeline runs evaluate. -/
attribute [local semireducible] Rat.add Rat.mul Rat.inv Rat.sub

/-- A cell of the table: `none` models `NaN` / a missing value. -/
abbrev Cell := Option ℚ

/-- One data row: the load-time index plus the named cells. -/
structure Row where
  idx  : Nat
  vals : List (String × Cell)
  deriving DecidableEq, Repr

/-- Cell lookup; an absent key behaves like `NaN` (pandas never distinguishes
a hole from a stored `NaN` in the operations this pipeline uses). -/
def getVal (r : Row) (c : String) : Cell :=
  match r.vals.find? (fun p => p.1 = c) with
  | some p => p.2
  | none => none

/-- Replace (first occurrence) or append the cell for column `c`. -/
def setValList : List (String × Cell) → String → Cell → List (String × Cell)
  | [], c, v => [(c, v)]
  | p :: ps, c, v => if p.1 = c then (c, v) :: ps else p :: setValList ps c v

def setVal (r : Row) (c : String) (v : Cell) : Row :=
  ⟨r.idx, setValList r.vals c v⟩

/-- A data frame: column names (with their order) and rows. -/
structure Table where
  cols : List String
  rows : List Row
  deriving DecidableEq, Repr

/-- The non-missing values of one column, in row order (`df[c].dropna()`). -/
def colValues (t : Table) (c : String) : List ℚ :=
  t.rows.filterMap (fun r => getVal r c)

/-- The load-time indices of the rows of a table. -/
def idxList (t : Table) : List Nat :=
  t.rows.map Row.idx

/-- `v <= b` with pandas `NaN` semantics (`NaN` compares `False`). -/
def oLe (v : Cell) (b : ℚ) : Bool :=
  match v with
  | some x => decide (x ≤ b)
  | none => false

/-- `v < b` with pandas `NaN` semantics. -/
def oLt (v : Cell) (b : ℚ) : Bool :=
  match v with
  | some x => decide (x < b)
  | none => false

/-- `v > b` with pandas `NaN` semantics. -/
def oGt (v : Cell) (b : ℚ) : Bool :=
  match v with
  | some x => decide (b < x)
  | none => false

/-- `v > 0` with pandas `NaN` semantics (the mask of `apply_log_transforms`). -/
def oPos (v : Cell) : Bool :=
  match v with
  | some x => decide (0 < x)
  | none => false

/-- Minimum of a list of rationals (callers guarantee non-emptiness;
`0` is a dummy for `[]`). -/
def listMin : List ℚ → ℚ
  | [] => 0
  | x :: xs => xs.foldl min x

/-- Maximum of a list of rationals. -/
def listMax : List ℚ → ℚ
  | [] => 0
  | x :: xs => xs.foldl max x

/-! ### Feature lists (hardcoded in `server/preprocess.py`) -/

/-- `preprocess.py:398` — the four features the model cannot do without. -/
def required_features : List String :=
  ["koi_period", "koi_depth", "koi_duration", "koi_prad"]

/-- `preprocess.py:399-402`. -/
def optional_features : List String :=
  ["koi_teq", "koi_insol", "koi_steff", "koi_slogg",
   "koi_srad", "koi_model_snr", "koi_impact"]

/-- `preprocess.py:403`. -/
def all_features : List String :=
  required_features ++ optional_features

/-- `preprocess.py:151` — features dropped to avoid label leakage. -/
def leakage_features : List String :=
  ["koi_score", "koi_pdisposition"]

/-- `preprocess.py:75` — the six log-transformed features the format detector
inspects (hardcoded in `is_already_preprocessed`, independent of the stats
artifact). -/
def detector_log_features : List String :=
  ["koi_period", "koi_depth", "koi_prad", "koi_insol", "koi_srad", "koi_model_snr"]

/-! ### Statistics artifact (`training_stats.json`) -/

/-- The four per-feature valid ranges the physical filter reads
(`stats['valid_ranges']` always carries exactly these keys). -/
structure ValidRanges where
  koi_period : ℚ × ℚ
  koi_prad : ℚ × ℚ
  koi_depth : ℚ × ℚ
  koi_teq : ℚ × ℚ
  deriving DecidableEq, Repr

/-- The frozen reference-statistics artifact: pre-transform medians
(association list, `medians.get(feat)` modelled by `List.lookup`), valid
physical ranges, and the ordered log-transform feature list. -/
structure Stats where
  medians : List (String × ℚ)
  valid_ranges : ValidRanges
  log_transform_features : List String
  deriving DecidableEq, Repr

/-! ### Pipeline stages -/

/-- `preprocess.py:51-57` — trim and lowercase every column name (cells are
keyed by the renamed columns, as pandas relabelling does).  `strip` and
`lower` are modelled structurally on the character list: whitespace is
dropped from both ends and every character lowercased. -/
def normName (s : String) : String :=
  ⟨(((s.data.dropWhile Char.isWhitespace).reverse.dropWhile
      Char.isWhitespace).reverse).map Char.toLower⟩

def normalize_column_names (t : Table) : Table :=
  ⟨t.cols.map normName,
   t.rows.map (fun r => ⟨r.idx, r.vals.map (fun p => (normName p.1, p.2))⟩)⟩

/-- The calibrated "already transformed" interval `(lo, hi)` for each detector
feature: a feature votes transformed when its observed max `≤ hi` and its
observed min `≥ lo` (`preprocess.py:98-127`). -/
def detectorBounds (f : String) : ℚ × ℚ :=
  if f = "koi_period" then (-3/2, 7/2)
  else if f = "koi_depth" then (0, 6)
  else if f = "koi_prad" then (-1, 5/2)
  else if f = "koi_insol" then (-2, 4)
  else if f = "koi_srad" then (-1, 3/2)
  else (-2, 5)

/-- Whether detector feature `f` (present, with non-empty value list `vs`)
votes "already transformed". -/
def votesTransformed (f : String) (vs : List ℚ) : Bool :=
  let b := detectorBounds f
  oLe (some (listMax vs)) b.2 && !(oLt (some (listMin vs)) b.1)

/-- One loop iteration of `is_already_preprocessed`: a feature participates
(`total_checks += 1`) when it is a column of the table and has at least one
non-missing value; it votes (`indicators += 1`) when additionally its observed
range lies in the calibrated bounds. -/
def detectorStep (t : Table) (acc : Nat × Nat) (f : String) : Nat × Nat :=
  if f ∈ t.cols then
    if colValues t f = [] then acc
    else ((if votesTransformed f (colValues t f) then acc.1 + 1 else acc.1),
          acc.2 + 1)
  else acc

/-- The `(indicators, total_checks)` counters of `is_already_preprocessed`. -/
def detectorCounts (t : Table) : Nat × Nat :=
  detector_log_features.foldl (detectorStep t) (0, 0)

/-- `preprocess.py:60-134` — the raw-vs-preprocessed format detector. -/
def is_already_preprocessed (t : Table) : Bool :=
  let c := detectorCounts t
  if c.2 = 0 then false
  else decide ((1 : ℚ) / 2 ≤ (c.1 : ℚ) / (c.2 : ℚ))

/-- `preprocess.py:137-143`. -/
def validate_required_features (t : Table) (req : List String) : Bool × List String :=
  let missing := req.filter (fun f => f ∉ t.cols)
  (missing.isEmpty, missing)

/-- `preprocess.py:146-157` — drop the leakage columns when present. -/
def remove_leakage_features (t : Table) : Table :=
  ⟨t.cols.filter (fun c => c ∉ leakage_features),
   t.rows.map (fun r => ⟨r.idx, r.vals.filter (fun p => p.1 ∉ leakage_features)⟩)⟩

/-- `preprocess.py:466` — `df.drop_duplicates(subset='kepoi_name',
keep='first')`: keep the first row carrying each `kepoi_name` value (pandas
treats the `NaN` keys as duplicates of one another). -/
def dedupRows : List Row → List Cell → List Row
  | [], _ => []
  | r :: rest, seen =>
    let k := getVal r "kepoi_name"
    if k ∈ seen then dedupRows rest seen
    else r :: dedupRows rest (k :: seen)

def drop_duplicates_kepoi (t : Table) : Table :=
  ⟨t.cols, dedupRows t.rows []⟩

/-! ### Physical plausibility filter (`preprocess.py:160-237`)

Each check contributes a per-row invalid predicate (gated on the column being
present, and `False` on `NaN` as in pandas) and a block of errors listing the
invalid rows in order; the surviving rows are `df[mask]` for the conjoined
mask.  The per-check message strings keep the feature reference of the source
f-strings (the interpolated numeric bounds are elided). -/

/-- Period check, `preprocess.py:176-184`: lower bound exclusive
(`<= min_val`), upper bound inclusive (`> max_val`). -/
def invPeriod (t : Table) (s : Stats) (r : Row) : Bool :=
  decide ("koi_period" ∈ t.cols) &&
    (oLe (getVal r "koi_period") s.valid_ranges.koi_period.1 ||
     oGt (getVal r "koi_period") s.valid_ranges.koi_period.2)

/-- Planet-radius check, `preprocess.py:189-197` (`< min_val` / `> max_val`,
both bounds inclusive for retention). -/
def invPrad (t : Table) (s : Stats) (r : Row) : Bool :=
  decide ("koi_prad" ∈ t.cols) &&
    (oLt (getVal r "koi_prad") s.valid_ranges.koi_prad.1 ||
     oGt (getVal r "koi_prad") s.valid_ranges.koi_prad.2)

/-- Transit-depth check, `preprocess.py:203-211`. -/
def invDepth (t : Table) (s : Stats) (r : Row) : Bool :=
  decide ("koi_depth" ∈ t.cols) &&
    (oLt (getVal r "koi_depth") s.valid_ranges.koi_depth.1 ||
     oGt (getVal r "koi_depth") s.valid_ranges.koi_depth.2)

/-- Equilibrium-temperature check, `preprocess.py:216-224`. -/
def invTeq (t : Table) (s : Stats) (r : Row) : Bool :=
  decide ("koi_teq" ∈ t.cols) &&
    (oLt (getVal r "koi_teq") s.valid_ranges.koi_teq.1 ||
     oGt (getVal r "koi_teq") s.valid_ranges.koi_teq.2)

/-- Cross-feature check, `preprocess.py:228-235`: evaluated only when both
columns are present; `NaN` in either cell compares `False`. -/
def invCross (t : Table) (r : Row) : Bool :=
  decide ("koi_prad" ∈ t.cols) && decide ("koi_srad" ∈ t.cols) &&
    (match getVal r "koi_prad", getVal r "koi_srad" with
     | some p, some s => decide (s * (1091 / 10) < p)
     | _, _ => false)

/-- The error block of one check: the invalid rows, in table order. -/
def errBlock (t : Table) (inv : Row → Bool) (msg : String) : List (Int × String) :=
  (t.rows.filter inv).map (fun r => ((r.idx : Int), msg))

/-- A row survives the physical filter iff no check marks it invalid. -/
def physKeep (t : Table) (s : Stats) (r : Row) : Bool :=
  !(invPeriod t s r || invPrad t s r || invDepth t s r || invTeq t s r ||
    invCross t r)

def validate_physical_ranges (t : Table) (s : Stats) :
    Table × List (Int × String) :=
  (⟨t.cols, t.rows.filter (physKeep t s)⟩,
   errBlock t (invPeriod t s) "koi_period out of range" ++
   errBlock t (invPrad t s) "koi_prad out of range" ++
   errBlock t (invDepth t s) "koi_depth out of range" ++
   errBlock t (invTeq t s) "koi_teq out of range" ++
   errBlock t (invCross t) "koi_prad > koi_srad (planet larger than star)")

/-! ### Imputer (`preprocess.py:240-287`) -/

/-- The per-row required-features errors (`preprocess.py:262-272`): for each
required feature present as a column, every row whose cell is missing. -/
def requiredErrors (t : Table) (req : List String) : List (Int × String) :=
  (req.filter (fun f => f ∈ t.cols)).flatMap (fun f =>
    (t.rows.filter (fun r => (getVal r f).isNone)).map
      (fun r => ((r.idx : Int), "Required feature " ++ f ++ " is missing")))

/-- `df.dropna(subset=[required present])` (`preprocess.py:275`). -/
def dropnaRequired (t : Table) (req : List String) : Table :=
  ⟨t.cols,
   t.rows.filter (fun r =>
     (req.filter (fun f => f ∈ t.cols)).all (fun f => (getVal r f).isSome))⟩

/-- `df[feat] = df[feat].fillna(m)`. -/
def fillCol (t : Table) (f : String) (m : ℚ) : Table :=
  ⟨t.cols,
   t.rows.map (fun r =>
     if (getVal r f).isNone then setVal r f (some m) else r)⟩

/-- One iteration of the optional-feature imputation loop
(`preprocess.py:278-285`): an optional feature present, with at least one
missing value and a median in the artifact, is filled with that frozen
median. -/
def imputeStep (s : Stats) (acc : Table) (f : String) : Table :=
  if f ∈ acc.cols then
    if acc.rows.any (fun r => (getVal r f).isNone) then
      match s.medians.lookup f with
      | some m => fillCol acc f m
      | none => acc
    else acc
  else acc

def imputeFill (opt : List String) (s : Stats) (t : Table) : Table :=
  opt.foldl (imputeStep s) t

def impute_missing_values (t : Table) (req opt : List String) (s : Stats) :
    Table × List (Int × String) :=
  (imputeFill opt s (dropnaRequired t req), requiredErrors t req)

/-! ### Magnitude transformer (`preprocess.py:290-325`) -/

/-- Transform one present column with at least one strictly positive entry:
positive cells become `some (L x)`, non-positive and missing cells become
`NaN`; the column is dropped and the freshly created log column renamed back,
which moves it to the end of the column order. -/
def transformCol (L : ℚ → ℚ) (t : Table) (f : String) : Table :=
  ⟨t.cols.erase f ++ [f],
   t.rows.map (fun r =>
     setVal r f (match getVal r f with
       | some x => if 0 < x then some (L x) else none
       | none => none))⟩

/-- One iteration of the transform loop: skip an absent column or one with no
strictly positive entry (`mask.sum() == 0`); otherwise transform it. -/
def logStep (L : ℚ → ℚ) (acc : Table) (f : String) : Table :=
  if f ∈ acc.cols then
    if acc.rows.countP (fun r => oPos (getVal r f)) = 0 then acc
    else transformCol L acc f
  else acc

def apply_log_transforms (L : ℚ → ℚ) (t : Table) (s : Stats) : Table :=
  s.log_transform_features.foldl (logStep L) t

/-! ### Outlier suppressor (`preprocess.py:328-361`) -/

/-- Insertion sort (ascending) on ℚ. -/
def insertSorted (x : ℚ) : List ℚ → List ℚ
  | [] => [x]
  | y :: ys => if x ≤ y then x :: y :: ys else y :: insertSorted x ys

def sortQ : List ℚ → List ℚ
  | [] => []
  | x :: xs => insertSorted x (sortQ xs)

/-- `Series.quantile(q)` with pandas' default linear interpolation:
`h = q * (n - 1)`, value `x_⌊h⌋ + (h - ⌊h⌋) * (x_⌊h⌋₊₁ - x_⌊h⌋)` on the
sorted data (callers guarantee non-emptiness). -/
def quantile (xs : List ℚ) (q : ℚ) : ℚ :=
  let s := sortQ xs
  let h : ℚ := q * ((s.length : ℚ) - 1)
  let i : Nat := h.floor.toNat
  let lo := s.getD i 0
  let hi := s.getD (i + 1) lo
  lo + (h - (i : ℚ)) * (hi - lo)

/-- The per-feature invalid predicate of the outlier stage: quartiles of the
stage-input column (the source computes every feature's bounds from the
unfiltered `df`), fences at `Q1 - 5·IQR` / `Q3 + 5·IQR`, `NaN` compares
`False`. -/
def outlierInv (t : Table) (f : String) (r : Row) : Bool :=
  let data := colValues t f
  let q1 := quantile data (1/4)
  let q3 := quantile data (3/4)
  let iqr := q3 - q1
  oLt (getVal r f) (q1 - 5 * iqr) || oGt (getVal r f) (q3 + 5 * iqr)

/-- One iteration of the `remove_extreme_outliers` loop: skip absent columns
and columns with no non-missing values; otherwise record the invalid rows and
conjoin the keep mask. -/
def outlierStep (t : Table) (acc : List (Int × String) × (Row → Bool))
    (f : String) : List (Int × String) × (Row → Bool) :=
  if f ∈ t.cols then
    if colValues t f = [] then acc
    else if t.rows.any (outlierInv t f) then
      (acc.1 ++ (t.rows.filter (outlierInv t f)).map
         (fun r => ((r.idx : Int), f ++ " is extreme outlier (5*IQR)")),
       fun r => acc.2 r && !outlierInv t f r)
    else acc
  else acc

/-- The loop of `remove_extreme_outliers`: accumulate errors and conjoin the
keep mask. -/
def outlierFold (t : Table) (feats : List String) :
    List (Int × String) × (Row → Bool) :=
  feats.foldl (outlierStep t) ([], fun _ => true)

def remove_extreme_outliers (t : Table) (feats : List String) :
    Table × List (Int × String) :=
  let st := outlierFold t feats
  (⟨t.cols, t.rows.filter st.2⟩, st.1)

/-! ### Final selection and orchestrator (`preprocess.py:364-506`) -/

/-- `df = df[available]` for `available = [f for f in all_features if f in
df.columns]`: restrict to the model features, in `all_features` order. -/
def select_features (t : Table) : Table :=
  let avail := all_features.filter (fun f => f ∈ t.cols)
  ⟨avail, t.rows.map (fun r => ⟨r.idx, avail.map (fun c => (c, getVal r c))⟩)⟩

/-- The aggregated result record of `preprocess_csv` (the processed table,
written to `output_csv_path` in the source, is carried in `output`). -/
structure PResult where
  success : Bool
  original_rows : Nat
  processed_rows : Nat
  removed_rows : Nat
  errors : List (Int × String)
  warnings : List String
  output : Option Table
  deriving DecidableEq, Repr

/-- A table-level (fatal) failure: a single sentinel error at row `-1`. -/
def failResult (orig : Nat) (msg : String) : PResult :=
  ⟨false, orig, 0, 0, [(-1, msg)], [], none⟩

/-- `preprocess.py:464-471` — remove duplicates by `kepoi_name` when the
column exists (warning, not error, when rows were removed; no-op otherwise). -/
def dedupStage (t : Table) : Table × List String :=
  if "kepoi_name" ∈ t.cols then
    (drop_duplicates_kepoi t,
     if (drop_duplicates_kepoi t).rows.length < t.rows.length then
       ["Removed duplicate kepoi_name entries"] else [])
  else (t, [])

/-- Steps 5-11 of the raw branch of `preprocess_csv`: leakage removal,
duplicate removal, physical validation, imputation, log transform, outlier
removal, final feature selection.  Returns the processed table, the
accumulated per-row errors (in stage order) and the warnings. -/
def rawPipeline (L : ℚ → ℚ) (df : Table) (s : Stats) :
    Table × List (Int × String) × List String :=
  let dd := dedupStage (remove_leakage_features df)
  let phys := validate_physical_ranges dd.1 s
  let imp := impute_missing_values phys.1 required_features optional_features s
  let outl := remove_extreme_outliers (apply_log_transforms L imp.1 s) all_features
  (select_features outl.1, phys.2 ++ imp.2 ++ outl.2, dd.2)

/-- `preprocess.py:364-506` — the full pipeline.  `L` models `np.log10`. -/
def preprocess_csv (L : ℚ → ℚ) (t : Table) (s : Stats) : PResult :=
  let orig := t.rows.length
  if t.rows.isEmpty then failResult orig "CSV file is empty"
  else
    let df := normalize_column_names t
    if is_already_preprocessed df then
      if (validate_required_features df required_features).1 then
        ⟨true, orig, (select_features df).rows.length, 0, [],
         ["CSV detected as pre-processed (log-transformed). Skipping normalization and transformations."],
         some (select_features df)⟩
      else
        failResult orig ("CSV missing required columns: " ++
          String.intercalate ", " (validate_required_features df required_features).2)
    else
      if (validate_required_features df required_features).1 then
        let rp := rawPipeline L df s
        ⟨true, orig, rp.1.rows.length, orig - rp.1.rows.length,
         rp.2.1, rp.2.2, some rp.1⟩
      else
        failResult orig ("CSV missing required columns: " ++
          String.intercalate ", " (validate_required_features df required_features).2)

/-! ### Default reference statistics

The valid ranges below are the defaults of the training pipeline
(`Improved-RF/data.py:170-200`), which the statistics artifact reproduces:
period `(0.2, 730]`, planet radius `[0.5, 30]`, transit depth
`[10, 100000]`, equilibrium temperature `[100, 3000]`.  The artifact's
medians are immaterial to the claims below; concrete runs instantiate them
explicitly. -/

def defaultRanges : ValidRanges :=
  ⟨(1/5, 730), (1/2, 30), (10, 100000), (100, 3000)⟩

def defaultStats : Stats :=
  ⟨[], defaultRanges, detector_log_features⟩

/-- Fold invariant of the outlier loop: a row the accumulated mask rejects is
cited by an accumulated error, and every accumulated error cites a row of the
stage input. -/
def OutlierInv (t : Table) (st : List (Int × String) × (Row → Bool)) : Prop :=
  (∀ r ∈ t.rows, st.2 r = false → ∃ m, ((r.idx : Int), m) ∈ st.1) ∧
  (∀ e ∈ st.1, ∃ r ∈ t.rows, e.1 = (r.idx : Int))

/-! ### Concrete tables and log instantiations used by the claim theorems

`np.log10` is instantiated at rational points: the values below agree with the
real `log10` at the arguments actually applied (`log10 100 = 2`,
`log10 10000 = 4`; `Lw` uses the three-decimal truncations `log10 5000 ≈ 3.7`,
`log10 3 ≈ 0.477`, immaterial to the statements using it). -/

def mkRow (i : Nat) (l : List (String × Cell)) : Row := ⟨i, l⟩

/-- Four single-feature rows probing the `koi_period` bounds: `0.2`,
`0.2000001`, `730`, `730.0001`. -/
def tC7 : Table :=
  ⟨["koi_period"],
   [mkRow 0 [("koi_period", some (1/5))],
    mkRow 1 [("koi_period", some (2000001/10000000))],
    mkRow 2 [("koi_period", some 730)],
    mkRow 3 [("koi_period", some (7300001/10000))]]⟩

/-- Two rows with the same `kepoi_name`; the second has the greater
`koi_model_snr`. -/
def tC4 : Table :=
  ⟨["kepoi_name", "koi_model_snr"],
   [mkRow 0 [("kepoi_name", some 1), ("koi_model_snr", some 5)],
    mkRow 1 [("kepoi_name", some 1), ("koi_model_snr", some 10)]]⟩

/-- A raw (natural-unit) table: `koi_period = 100`, `koi_depth = 10000`,
`koi_duration = 5`, `koi_prad = 100` (the radius is out of range). -/
def rawR : Table :=
  ⟨["koi_period", "koi_depth", "koi_duration", "koi_prad"],
   [mkRow 0 [("koi_period", some 100), ("koi_depth", some 10000),
             ("koi_duration", some 5), ("koi_prad", some 100)]]⟩

/-- The log-transformed equivalent of `rawR`: `log10 100 = 2`,
`log10 10000 = 4`, `koi_duration` is not a log feature. -/
def traT : Table :=
  ⟨["koi_period", "koi_depth", "koi_duration", "koi_prad"],
   [mkRow 0 [("koi_period", some 2), ("koi_depth", some 4),
             ("koi_duration", some 5), ("koi_prad", some 2)]]⟩

/-- `log10` at the points of `rawR`: `100 ↦ 2`, `10000 ↦ 4`. -/
def L1 : ℚ → ℚ := fun x => if x = 10000 then 4 else 2

/-- `log10` at the points of `tC1w`: `100 ↦ 2`, `5000 ↦ 3.7`, `3 ↦ 0.477`. -/
def Lw : ℚ → ℚ :=
  fun x => if x = 100 then 2 else if x = 5000 then 37/10
           else if x = 3 then 477/1000 else 0

/-- A raw table every raw-branch stage leaves untouched. -/
def tC1w : Table :=
  ⟨["koi_period", "koi_depth", "koi_duration", "koi_prad"],
   [mkRow 0 [("koi_period", some 100), ("koi_depth", some 5000),
             ("koi_duration", some 5), ("koi_prad", some 3)]]⟩

/-- A table in log units whose second row misses the required `koi_period`
value; the detector classifies it as already transformed. -/
def tC2 : Table :=
  ⟨["koi_period", "koi_depth", "koi_duration", "koi_prad"],
   [mkRow 0 [("koi_period", some 2), ("koi_depth", some 3),
             ("koi_duration", some 5), ("koi_prad", some 1)],
    mkRow 1 [("koi_period", none), ("koi_depth", some 3),
             ("koi_duration", some 5), ("koi_prad", some 1)]]⟩

/-- A raw table whose second row misses the required `koi_duration` value. -/
def tC2w : Table :=
  ⟨["koi_period", "koi_depth", "koi_duration", "koi_prad"],
   [mkRow 0 [("koi_period", some 100), ("koi_depth", some 5000),
             ("koi_duration", some 5), ("koi_prad", some 3)],
    mkRow 1 [("koi_period", some 50), ("koi_depth", some 100),
             ("koi_duration", none), ("koi_prad", some 5)]]⟩

/-- The output table of `preprocess_csv` on `tC2w`. -/
def tC2wOut : Table :=
  ⟨["koi_period", "koi_depth", "koi_duration", "koi_prad"],
   [mkRow 0 [("koi_period", some 0), ("koi_depth", some 0),
             ("koi_duration", some 5), ("koi_prad", some 0)]]⟩

/-- Two identical valid raw rows sharing a `kepoi_name`. -/
def tC3 : Table :=
  ⟨["kepoi_name", "koi_period", "koi_depth", "koi_duration", "koi_prad"],
   [mkRow 0 [("kepoi_name", some 7), ("koi_period", some 100),
             ("koi_depth", some 10000), ("koi_duration", some 5),
             ("koi_prad", some 3)],
    mkRow 1 [("kepoi_name", some 7), ("koi_period", some 100),
             ("koi_depth", some 10000), ("koi_duration", some 5),
             ("koi_prad", some 3)]]⟩

/-- A raw table whose second row has an out-of-range `koi_period`. -/
def tC3w : Table :=
  ⟨["koi_period", "koi_depth", "koi_duration", "koi_prad"],
   [mkRow 0 [("koi_period", some 100), ("koi_depth", some 5000),
             ("koi_duration", some 5), ("koi_prad", some 3)],
    mkRow 1 [("koi_period", some 1000000000), ("koi_depth", some 5000),
             ("koi_duration", some 5), ("koi_prad", some 3)]]⟩

/-- A statistics artifact whose frozen `koi_teq` median is 42. -/
def stats5 : Stats := ⟨[("koi_teq", 42)], defaultRanges, detector_log_features⟩

/-- First batch for the imputation hyperproperty: `koi_teq` missing, then 7. -/
def tC5a : Table :=
  ⟨["koi_teq"], [mkRow 0 [("koi_teq", none)], mkRow 1 [("koi_teq", some 7)]]⟩

/-- Second batch, a very different `koi_teq` distribution: 1000, then
missing. -/
def tC5b : Table :=
  ⟨["koi_teq"], [mkRow 0 [("koi_teq", some 1000)], mkRow 1 [("koi_teq", none)]]⟩

/-- One row whose `koi_period` column is entirely non-positive. -/
def tC6 : Table :=
  ⟨["koi_period"], [mkRow 0 [("koi_period", some (-5))]]⟩

/-- A `koi_period` column with a positive and a non-positive entry. -/
def tC6w : Table :=
  ⟨["koi_period"],
   [mkRow 0 [("koi_period", some 100)], mkRow 1 [("koi_period", some (-5))]]⟩

/-- `koi_prad = 20` (in range) with `koi_srad = 0.1`: only the cross-feature
constraint is violated. -/
def tC8a : Table :=
  ⟨["koi_prad", "koi_srad"],
   [mkRow 0 [("koi_prad", some 20), ("koi_srad", some (1/10))]]⟩

/-- The same `koi_prad = 20` row with the `koi_srad` column absent. -/
def tC8b : Table :=
  ⟨["koi_prad"], [mkRow 0 [("koi_prad", some 20)]]⟩

/-- The claim's row: `koi_prad = 1000`, `koi_srad = 1`. -/
def tC8both : Table :=
  ⟨["koi_prad", "koi_srad"],
   [mkRow 0 [("koi_prad", some 1000), ("koi_srad", some 1)]]⟩

/-- The claim's row with `koi_srad` missing: `koi_prad = 1000` alone. -/
def tC8claim : Table :=
  ⟨["koi_prad"], [mkRow 0 [("koi_prad", some 1000)]]⟩

/-- One log-scale `koi_period` row, detected as already transformed. -/
def tC9w : Table :=
  ⟨["koi_period"], [mkRow 0 [("koi_period", some 2)]]⟩

/-- A raw table whose second row has an out-of-range `koi_period` (error
indices witness). -/
def tC10w : Table :=
  ⟨["koi_period", "koi_depth", "koi_duration", "koi_prad"],
   [mkRow 0 [("koi_period", some 100), ("koi_depth", some 5000),
             ("koi_duration", some 5), ("koi_prad", some 3)],
    mkRow 1 [("koi_period", some (-4)), ("koi_depth", some 5000),
             ("koi_duration", some 5), ("koi_prad", some 3)]]⟩

/-- Spec-side reformulation for the detector claim: the participating
log-transform features — those present in the table with at least one
non-missing value. -/
def participatingFeatures (t : Table) : List String :=
  detector_log_features.filter
    (fun f => decide (f ∈ t.cols) && !(colValues t f).isEmpty)

/-- Spec-side reformulation: the participating features whose observed
min/max both fall inside the calibrated transformed-range. -/
def votingFeatures (t : Table) : List String :=
  (participatingFeatures t).filter
    (fun f => votesTransformed f (colValues t f))

/-! ### Basic lemmas about cells and rows -/

theorem getVal_setVal_self (r : Row) (c : String) (v : Cell) :
    getVal (setVal r c v) c = v := by
  obtain ⟨i, l⟩ := r
  simp only [setVal, getVal]
  induction l with
  | nil => simp [setValList]
  | cons p ps ih =>
    by_cases h : p.1 = c
    · simp [setValList, h]
    · simpa [setValList, h, List.find?_cons, decide_eq_true_eq] using ih

theorem getVal_setVal_ne (r : Row) (c c' : String) (v : Cell) (h : c' ≠ c) :
    getVal (setVal r c v) c' = getVal r c' := by
  obtain ⟨i, l⟩ := r
  simp only [setVal, getVal]
  induction l with
  | nil => simp [setValList, List.find?, h, Ne.symm h]
  | cons p ps ih =>
    by_cases hp : p.1 = c
    · subst hp
      simp [setValList, List.find?_cons, decide_eq_true_eq, Ne.symm h]
    · by_cases hp' : p.1 = c'
      · have hfind : ∀ l : List (String × Cell),
            List.find? (fun q => decide (q.1 = c')) (p :: l) = some p :=
          fun l => List.find?_cons_of_pos _ (by simp [hp'])
        simp only [setValList, if_neg hp, hfind]
      · simpa [setValList, hp, List.find?_cons, hp', decide_eq_true_eq] using ih

theorem idx_setVal (r : Row) (c : String) (v : Cell) :
    (setVal r c v).idx = r.idx := rfl

/-! ### Index-preservation lemmas for each stage -/

theorem idxList_normalize (t : Table) :
    idxList (normalize_column_names t) = idxList t := by
  simp [idxList, normalize_column_names]

theorem idxList_remove_leakage (t : Table) :
    idxList (remove_leakage_features t) = idxList t := by
  simp [idxList, remove_leakage_features]

theorem dedupRows_sublist (l : List Row) (seen : List Cell) :
    (dedupRows l seen).Sublist l := by
  induction l generalizing seen with
  | nil => simp [dedupRows]
  | cons r rest ih =>
    simp only [dedupRows]
    by_cases h : getVal r "kepoi_name" ∈ seen
    · simp only [h, if_true]
      exact (ih seen).cons r
    · simp only [h, if_false]
      exact (ih _).cons₂ r

theorem dedup_rows_sublist (t : Table) :
    (drop_duplicates_kepoi t).rows.Sublist t.rows :=
  dedupRows_sublist t.rows []

theorem phys_rows_sublist (t : Table) (s : Stats) :
    (validate_physical_ranges t s).1.rows.Sublist t.rows :=
  List.filter_sublist t.rows

theorem idxList_fillCol (t : Table) (f : String) (m : ℚ) :
    idxList (fillCol t f m) = idxList t := by
  simp only [idxList, fillCol, List.map_map]
  refine List.map_congr_left (fun r _ => ?_)
  by_cases h : getVal r f = none <;> simp [h, setVal]

theorem idxList_imputeStep (s : Stats) (t : Table) (f : String) :
    idxList (imputeStep s t f) = idxList t := by
  simp only [imputeStep]
  by_cases hc : f ∈ t.cols
  · by_cases hm : t.rows.any (fun r => (getVal r f).isNone)
    · cases hl : s.medians.lookup f with
      | none => simp [hc, hm, hl]
      | some m => simp [hc, hm, hl, idxList_fillCol]
    · simp [hc, hm]
  · simp [hc]

theorem idxList_imputeFill (opt : List String) (s : Stats) (t : Table) :
    idxList (imputeFill opt s t) = idxList t := by
  induction opt generalizing t with
  | nil => simp [imputeFill]
  | cons f fs ih =>
    simp only [imputeFill, List.foldl_cons] at ih ⊢
    rw [ih, idxList_imputeStep]

theorem imputed_rows_sublist_idx (t : Table) (req opt : List String) (s : Stats) :
    (idxList (impute_missing_values t req opt s).1).Sublist (idxList t) := by
  simp only [impute_missing_values, idxList_imputeFill]
  exact List.Sublist.map Row.idx (List.filter_sublist t.rows)

theorem idxList_transformCol (L : ℚ → ℚ) (t : Table) (f : String) :
    idxList (transformCol L t f) = idxList t := by
  simp [idxList, transformCol, List.map_map, idx_setVal, Function.comp]

theorem idxList_logStep (L : ℚ → ℚ) (t : Table) (f : String) :
    idxList (logStep L t f) = idxList t := by
  simp only [logStep]
  by_cases hc : f ∈ t.cols
  · by_cases hz : t.rows.countP (fun r => oPos (getVal r f)) = 0
    · simp [hc, hz]
    · simp [hc, hz, idxList_transformCol]
  · simp [hc]

theorem idxList_apply_log_transforms (L : ℚ → ℚ) (t : Table) (s : Stats) :
    idxList (apply_log_transforms L t s) = idxList t := by
  simp only [apply_log_transforms]
  induction s.log_transform_features generalizing t with
  | nil => simp
  | cons f fs ih =>
    simp only [List.foldl_cons] at ih ⊢
    rw [ih, idxList_logStep]

theorem outlier_rows_sublist (t : Table) (feats : List String) :
    (remove_extreme_outliers t feats).1.rows.Sublist t.rows :=
  List.filter_sublist t.rows

theorem idxList_select (t : Table) :
    idxList (select_features t) = idxList t := by
  simp [idxList, select_features]

/-! ### Error coverage and error origin -/

theorem errBlock_mem_of (t : Table) (inv : Row → Bool) (msg : String) (r : Row)
    (hr : r ∈ t.rows) (hi : inv r = true) :
    ((r.idx : Int), msg) ∈ errBlock t inv msg := by
  simp only [errBlock, List.mem_map]
  exact ⟨r, List.mem_filter.mpr ⟨hr, hi⟩, rfl⟩

theorem errBlock_origin (t : Table) (inv : Row → Bool) (msg : String)
    (e : Int × String) (he : e ∈ errBlock t inv msg) :
    ∃ r ∈ t.rows, e.1 = (r.idx : Int) := by
  simp only [errBlock, List.mem_map] at he
  obtain ⟨r, hr, rfl⟩ := he
  exact ⟨r, (List.mem_filter.mp hr).1, rfl⟩

/-- Every row the physical filter removes is cited by at least one of its
error entries. -/
theorem phys_removed_has_error (t : Table) (s : Stats) (i : Nat)
    (hin : i ∈ idxList t)
    (hout : i ∉ idxList (validate_physical_ranges t s).1) :
    ∃ m, ((i : Int), m) ∈ (validate_physical_ranges t s).2 := by
  simp only [idxList, List.mem_map] at hin
  obtain ⟨r, hr, rfl⟩ := hin
  have hkeep : physKeep t s r = false := by
    by_contra h
    exact hout (by
      simp only [idxList, validate_physical_ranges, List.mem_map]
      exact ⟨r, List.mem_filter.mpr ⟨hr, by simpa using h⟩, rfl⟩)
  have hinv : invPeriod t s r = true ∨ invPrad t s r = true ∨
      invDepth t s r = true ∨ invTeq t s r = true ∨ invCross t r = true := by
    simp only [physKeep, Bool.not_eq_false'] at hkeep
    have := hkeep
    simp only [Bool.or_eq_true] at this
    tauto
  simp only [validate_physical_ranges, List.mem_append]
  rcases hinv with h | h | h | h | h
  · exact ⟨_, Or.inl (Or.inl (Or.inl (Or.inl (errBlock_mem_of t _ _ r hr h))))⟩
  · exact ⟨_, Or.inl (Or.inl (Or.inl (Or.inr (errBlock_mem_of t _ _ r hr h))))⟩
  · exact ⟨_, Or.inl (Or.inl (Or.inr (errBlock_mem_of t _ _ r hr h)))⟩
  · exact ⟨_, Or.inl (Or.inr (errBlock_mem_of t _ _ r hr h))⟩
  · exact ⟨_, Or.inr (errBlock_mem_of t _ _ r hr h)⟩

/-- Every physical-filter error cites a row of the stage input. -/
theorem phys_errors_origin (t : Table) (s : Stats) (e : Int × String)
    (he : e ∈ (validate_physical_ranges t s).2) :
    ∃ r ∈ t.rows, e.1 = (r.idx : Int) := by
  simp only [validate_physical_ranges, List.mem_append] at he
  rcases he with ((((h | h) | h) | h) | h) <;>
    exact errBlock_origin _ _ _ _ h

/-- Every row the imputer drops (a missing required feature) is cited by at
least one of its error entries. -/
theorem impute_removed_has_error (t : Table) (req opt : List String) (s : Stats)
    (i : Nat) (hin : i ∈ idxList t)
    (hout : i ∉ idxList (impute_missing_values t req opt s).1) :
    ∃ m, ((i : Int), m) ∈ (impute_missing_values t req opt s).2 := by
  simp only [idxList, List.mem_map] at hin
  obtain ⟨r, hr, rfl⟩ := hin
  have hdrop : ¬ ((req.filter (fun f => f ∈ t.cols)).all
      (fun f => (getVal r f).isSome) = true) := by
    intro h
    refine hout ?_
    have hmem : r ∈ (dropnaRequired t req).rows :=
      List.mem_filter.mpr ⟨hr, h⟩
    have heq : idxList (impute_missing_values t req opt s).1 =
        idxList (dropnaRequired t req) := by
      simp [impute_missing_values, idxList_imputeFill]
    rw [heq]
    simp only [idxList, List.mem_map]
    exact ⟨r, hmem, rfl⟩
  simp only [List.all_eq_true, not_forall] at hdrop
  obtain ⟨f, hf, hnone⟩ := hdrop
  have hnone' : (getVal r f).isNone = true := by
    cases h : getVal r f <;> simp [h] at hnone ⊢
  refine ⟨"Required feature " ++ f ++ " is missing", ?_⟩
  simp only [impute_missing_values, requiredErrors, List.mem_flatMap]
  exact ⟨f, hf, by
    simp only [List.mem_map]
    exact ⟨r, List.mem_filter.mpr ⟨hr, hnone'⟩, rfl⟩⟩

/-- Every imputer error cites a row of the stage input. -/
theorem impute_errors_origin (t : Table) (req opt : List String) (s : Stats)
    (e : Int × String) (he : e ∈ (impute_missing_values t req opt s).2) :
    ∃ r ∈ t.rows, e.1 = (r.idx : Int) := by
  simp only [impute_missing_values, requiredErrors, List.mem_flatMap,
    List.mem_map] at he
  obtain ⟨f, _, r, hr, rfl⟩ := he
  exact ⟨r, (List.mem_filter.mp hr).1, rfl⟩

theorem outlierStep_inv (t : Table) (f : String)
    (st : List (Int × String) × (Row → Bool)) (h : OutlierInv t st) :
    OutlierInv t (outlierStep t st f) := by
  obtain ⟨h1, h2⟩ := h
  simp only [outlierStep]
  by_cases hc : f ∈ t.cols
  · simp only [hc, if_true]
    by_cases hv : colValues t f = []
    · simpa [hv] using ⟨h1, h2⟩
    · simp only [hv, if_false]
      by_cases ha : t.rows.any (outlierInv t f) = true
      · simp only [ha, if_true]
        constructor
        · intro r hr hkeep
          simp only [Bool.and_eq_false_iff] at hkeep
          rcases hkeep with hk | hk
          · obtain ⟨m, hm⟩ := h1 r hr hk
            exact ⟨m, List.mem_append.mpr (Or.inl hm)⟩
          · refine ⟨f ++ " is extreme outlier (5*IQR)",
              List.mem_append.mpr (Or.inr ?_)⟩
            simp only [List.mem_map]
            exact ⟨r, List.mem_filter.mpr ⟨hr, by simpa using hk⟩, rfl⟩
        · intro e he
          rcases List.mem_append.mp he with h | h
          · exact h2 e h
          · simp only [List.mem_map] at h
            obtain ⟨r, hr, rfl⟩ := h
            exact ⟨r, (List.mem_filter.mp hr).1, rfl⟩
      · simpa [ha] using ⟨h1, h2⟩
  · simpa [hc] using ⟨h1, h2⟩

theorem foldl_outlier_inv (t : Table) (feats : List String) :
    ∀ st, OutlierInv t st → OutlierInv t (feats.foldl (outlierStep t) st) := by
  induction feats with
  | nil => intro st h; exact h
  | cons f fs ih =>
    intro st h
    rw [List.foldl_cons]
    exact ih _ (outlierStep_inv t f st h)

theorem outlierFold_inv (t : Table) (feats : List String) :
    OutlierInv t (outlierFold t feats) := by
  have base : OutlierInv t ([], fun _ => true) := by
    constructor
    · intro r _ h
      simp at h
    · intro e he
      simp at he
  exact foldl_outlier_inv t feats _ base

/-- Every row the outlier stage removes is cited by one of its errors. -/
theorem outlier_removed_has_error (t : Table) (feats : List String) (i : Nat)
    (hin : i ∈ idxList t)
    (hout : i ∉ idxList (remove_extreme_outliers t feats).1) :
    ∃ m, ((i : Int), m) ∈ (remove_extreme_outliers t feats).2 := by
  simp only [idxList, List.mem_map] at hin
  obtain ⟨r, hr, rfl⟩ := hin
  have hk : (outlierFold t feats).2 r = false := by
    by_contra h
    refine hout ?_
    simp only [idxList, remove_extreme_outliers, List.mem_map]
    exact ⟨r, List.mem_filter.mpr ⟨hr, by simpa using h⟩, rfl⟩
  exact (outlierFold_inv t feats).1 r hr hk

/-- Every outlier-stage error cites a row of the stage input. -/
theorem outlier_errors_origin (t : Table) (feats : List String)
    (e : Int × String) (he : e ∈ (remove_extreme_outliers t feats).2) :
    ∃ r ∈ t.rows, e.1 = (r.idx : Int) :=
  (outlierFold_inv t feats).2 e he

/-! ### Value-level characterization of the imputation loop -/

theorem cols_fillCol (t : Table) (f : String) (m : ℚ) :
    (fillCol t f m).cols = t.cols := rfl

/-- The imputation loop is row-wise: the output rows are a map of the input
rows; indices are preserved, and the value of a cell is the frozen median
exactly when its feature is an optional feature present in the table and the
cell was missing — independent of every other row of the batch. -/
theorem imputeFill_spec (opt : List String) (s : Stats) (t : Table) :
    ∃ g : Row → Row,
      (imputeFill opt s t).rows = t.rows.map g ∧
      (imputeFill opt s t).cols = t.cols ∧
      ∀ r ∈ t.rows, (g r).idx = r.idx ∧
        ∀ f, getVal (g r) f =
          if f ∈ opt ∧ f ∈ t.cols ∧ getVal r f = none then s.medians.lookup f
          else getVal r f := by
  induction opt generalizing t with
  | nil =>
    refine ⟨id, by simp [imputeFill], by simp [imputeFill], ?_⟩
    intro r _
    refine ⟨rfl, fun f => ?_⟩
    simp
  | cons f fs ih =>
    have hstep : imputeFill (f :: fs) s t = imputeFill fs s (imputeStep s t f) := by
      simp [imputeFill]
    by_cases hc : f ∈ t.cols
    · by_cases hm : t.rows.any (fun r => (getVal r f).isNone) = true
      · cases hl : s.medians.lookup f with
        | none =>
          have hid : imputeStep s t f = t := by
            simp [imputeStep, hc, hm, hl]
          obtain ⟨g, hrows, hcols, hspec⟩ := ih t
          refine ⟨g, by rw [hstep, hid]; exact hrows,
            by rw [hstep, hid]; exact hcols, ?_⟩
          intro r hr
          obtain ⟨hidx, hval⟩ := hspec r hr
          refine ⟨hidx, fun f0 => ?_⟩
          rw [hval f0]
          by_cases hf0 : f0 = f
          · subst hf0
            by_cases hn : getVal r f0 = none
            · by_cases hmem : f0 ∈ fs
              · simp [hmem, hc, hn, hl]
              · simp [hmem, hc, hn, hl]
            · simp [hn]
          · have : (f0 ∈ f :: fs) ↔ (f0 ∈ fs) := by simp [hf0]
            simp only [this]
        | some m =>
          have hfill : imputeStep s t f = fillCol t f m := by
            simp [imputeStep, hc, hm, hl]
          set h : Row → Row := fun r =>
            if (getVal r f).isNone then setVal r f (some m) else r with hh
          have hrows1 : (fillCol t f m).rows = t.rows.map h := rfl
          obtain ⟨g1, hrows, hcols, hspec⟩ := ih (fillCol t f m)
          refine ⟨fun r => g1 (h r), ?_, ?_, ?_⟩
          · rw [hstep, hfill, hrows, hrows1, List.map_map]
            rfl
          · rw [hstep, hfill, hcols, cols_fillCol]
          · intro r hr
            have hhr : h r ∈ (fillCol t f m).rows := by
              rw [hrows1]
              exact List.mem_map_of_mem h hr
            obtain ⟨hidx, hval⟩ := hspec (h r) hhr
            have hidx' : (h r).idx = r.idx := by
              by_cases hn : getVal r f = none <;> simp [hh, hn, setVal]
            refine ⟨by rw [hidx, hidx'], fun f0 => ?_⟩
            rw [hval f0, cols_fillCol]
            by_cases hf0 : f0 = f
            · subst hf0
              by_cases hn : getVal r f0 = none
              · have hget : getVal (h r) f0 = some m := by
                  simp [hh, hn, getVal_setVal_self]
                simp [hget, hn, hc, hl]
              · have hget : getVal (h r) f0 = getVal r f0 := by
                  simp [hh, hn]
                simp [hget, hn]
            · have hget : getVal (h r) f0 = getVal r f0 := by
                by_cases hn : getVal r f = none
                · simp [hh, hn, getVal_setVal_ne r f f0 (some m) hf0]
                · simp [hh, hn]
              have hmemiff : (f0 ∈ f :: fs) ↔ (f0 ∈ fs) := by simp [hf0]
              rw [hget]
              simp only [hmemiff]
      · have hid : imputeStep s t f = t := by
          simp only [imputeStep, if_pos hc, hm]
          simp
        obtain ⟨g, hrows, hcols, hspec⟩ := ih t
        refine ⟨g, by rw [hstep, hid]; exact hrows,
          by rw [hstep, hid]; exact hcols, ?_⟩
        intro r hr
        obtain ⟨hidx, hval⟩ := hspec r hr
        refine ⟨hidx, fun f0 => ?_⟩
        rw [hval f0]
        by_cases hf0 : f0 = f
        · subst hf0
          have hn : ¬ getVal r f0 = none := by
            intro hn
            exact hm (List.any_eq_true.mpr ⟨r, hr, by simp [hn]⟩)
          simp [hn]
        · have : (f0 ∈ f :: fs) ↔ (f0 ∈ fs) := by simp [hf0]
          simp only [this]
    · have hid : imputeStep s t f = t := by
        simp [imputeStep, hc]
      obtain ⟨g, hrows, hcols, hspec⟩ := ih t
      refine ⟨g, by rw [hstep, hid]; exact hrows,
        by rw [hstep, hid]; exact hcols, ?_⟩
      intro r hr
      obtain ⟨hidx, hval⟩ := hspec r hr
      refine ⟨hidx, fun f0 => ?_⟩
      rw [hval f0]
      by_cases hf0 : f0 = f
      · subst hf0
        simp [hc]
      · have : (f0 ∈ f :: fs) ↔ (f0 ∈ fs) := by simp [hf0]
        simp only [this]

/-! ### Value-level characterization of the transform loop -/

/-- The post-transform cell: strictly positive entries become their log,
everything else becomes missing. -/
def logCell (L : ℚ → ℚ) (v : Cell) : Cell :=
  match v with
  | some x => if 0 < x then some (L x) else none
  | none => none

theorem transformCol_rows (L : ℚ → ℚ) (t : Table) (f : String) :
    (transformCol L t f).rows =
      t.rows.map (fun r => setVal r f (logCell L (getVal r f))) := by
  simp only [transformCol, logCell]

theorem mem_cols_transformCol (L : ℚ → ℚ) (t : Table) (f : String)
    (hf : f ∈ t.cols) (c : String) :
    c ∈ (transformCol L t f).cols ↔ c ∈ t.cols := by
  simp only [transformCol, List.mem_append, List.mem_singleton]
  by_cases hc : c = f
  · subst hc
    simp [hf]
  · simp [List.mem_erase_of_ne hc, hc]

theorem countP_transformCol (L : ℚ → ℚ) (t : Table) (f c : String)
    (hne : c ≠ f) :
    (transformCol L t f).rows.countP (fun r => oPos (getVal r c)) =
      t.rows.countP (fun r => oPos (getVal r c)) := by
  rw [transformCol_rows, List.countP_map]
  refine List.countP_congr (fun r _ => ?_)
  simp [Function.comp, getVal_setVal_ne r f c _ hne]

/-- The transform loop is row-wise: indices are preserved and a cell is
replaced by its log-cell exactly when its feature is a (present) log-transform
feature whose column has at least one strictly positive entry; otherwise the
cell — in particular a non-positive cell of an entirely non-positive column —
is untouched. -/
theorem logFold_spec (L : ℚ → ℚ) (feats : List String) (hnd : feats.Nodup)
    (t : Table) :
    ∃ g : Row → Row,
      (feats.foldl (logStep L) t).rows = t.rows.map g ∧
      (∀ c, c ∈ (feats.foldl (logStep L) t).cols ↔ c ∈ t.cols) ∧
      ∀ r ∈ t.rows, (g r).idx = r.idx ∧
        ∀ f, getVal (g r) f =
          if f ∈ feats ∧ f ∈ t.cols ∧
              ¬ t.rows.countP (fun r0 => oPos (getVal r0 f)) = 0 then
            logCell L (getVal r f)
          else getVal r f := by
  induction feats generalizing t with
  | nil =>
    refine ⟨id, by simp, by simp, ?_⟩
    intro r _
    exact ⟨rfl, fun f => by simp⟩
  | cons f fs ih =>
    obtain ⟨hf, hnd'⟩ := List.nodup_cons.mp hnd
    have hstep : (f :: fs).foldl (logStep L) t = fs.foldl (logStep L) (logStep L t f) := by
      simp
    by_cases hc : f ∈ t.cols
    · by_cases hz : t.rows.countP (fun r0 => oPos (getVal r0 f)) = 0
      · have hid : logStep L t f = t := by simp [logStep, hc, hz]
        obtain ⟨g, hrows, hcols, hspec⟩ := ih hnd' t
        refine ⟨g, by rw [hstep, hid]; exact hrows,
          by rw [hstep, hid]; exact hcols, ?_⟩
        intro r hr
        obtain ⟨hidx, hval⟩ := hspec r hr
        refine ⟨hidx, fun f0 => ?_⟩
        rw [hval f0]
        by_cases hf0 : f0 = f
        · subst hf0
          simp [hf, hz]
        · have : (f0 ∈ f :: fs) ↔ (f0 ∈ fs) := by simp [hf0]
          simp only [this]
      · have htr : logStep L t f = transformCol L t f := by
          simp [logStep, hc, hz]
        set h : Row → Row := fun r => setVal r f (logCell L (getVal r f)) with hh
        have hrows1 : (transformCol L t f).rows = t.rows.map h :=
          transformCol_rows L t f
        obtain ⟨g1, hrows, hcols, hspec⟩ := ih hnd' (transformCol L t f)
        refine ⟨fun r => g1 (h r), ?_, ?_, ?_⟩
        · rw [hstep, htr, hrows, hrows1, List.map_map]
          rfl
        · intro c
          rw [hstep, htr, hcols c, mem_cols_transformCol L t f hc c]
        · intro r hr
          have hhr : h r ∈ (transformCol L t f).rows := by
            rw [hrows1]
            exact List.mem_map_of_mem h hr
          obtain ⟨hidx, hval⟩ := hspec (h r) hhr
          refine ⟨by rw [hidx]; simp [hh, setVal], fun f0 => ?_⟩
          rw [hval f0]
          by_cases hf0 : f0 = f
          · subst hf0
            have hnmem : ¬ (f0 ∈ fs) := hf
            have hget : getVal (h r) f0 = logCell L (getVal r f0) := by
              simp [hh, getVal_setVal_self]
            simp [hnmem, hget, hc, hz]
          · have hget : getVal (h r) f0 = getVal r f0 := by
              simp [hh, getVal_setVal_ne r f f0 _ hf0]
            have hmemiff : (f0 ∈ f :: fs) ↔ (f0 ∈ fs) := by simp [hf0]
            have hcoliff : f0 ∈ (transformCol L t f).cols ↔ f0 ∈ t.cols :=
              mem_cols_transformCol L t f hc f0
            have hcount : (transformCol L t f).rows.countP
                (fun r0 => oPos (getVal r0 f0)) =
                t.rows.countP (fun r0 => oPos (getVal r0 f0)) :=
              countP_transformCol L t f f0 hf0
            rw [hget, hcount]
            simp only [hmemiff, hcoliff]
    · have hid : logStep L t f = t := by simp [logStep, hc]
      obtain ⟨g, hrows, hcols, hspec⟩ := ih hnd' t
      refine ⟨g, by rw [hstep, hid]; exact hrows,
        by rw [hstep, hid]; exact hcols, ?_⟩
      intro r hr
      obtain ⟨hidx, hval⟩ := hspec r hr
      refine ⟨hidx, fun f0 => ?_⟩
      rw [hval f0]
      by_cases hf0 : f0 = f
      · subst hf0
        simp [hc]
      · have : (f0 ∈ f :: fs) ↔ (f0 ∈ fs) := by simp [hf0]
        simp only [this]

/-! ### Small structural lemmas -/

theorem validate_required_mem (t : Table) (req : List String)
    (h : (validate_required_features t req).1 = true) (f : String)
    (hf : f ∈ req) : f ∈ t.cols := by
  simp only [validate_required_features, List.isEmpty_iff] at h
  by_contra hc
  have : f ∈ req.filter (fun f => f ∉ t.cols) :=
    List.mem_filter.mpr ⟨hf, by simpa using hc⟩
  rw [h] at this
  simp at this

theorem req_not_leakage (f : String) (hf : f ∈ required_features) :
    f ∉ leakage_features := by
  fin_cases hf <;> decide

theorem getVal_filter_leakage (i : Nat) (vals : List (String × Cell))
    (f : String) (hf : f ∉ leakage_features) :
    getVal ⟨i, vals.filter (fun p => p.1 ∉ leakage_features)⟩ f =
      getVal ⟨i, vals⟩ f := by
  simp only [getVal]
  induction vals with
  | nil => simp
  | cons p ps ih =>
    by_cases hl : p.1 ∈ leakage_features
    · have hne : ¬ p.1 = f := fun h => hf (h ▸ hl)
      simpa [List.filter_cons, hl, List.find?_cons, hne] using ih
    · by_cases hp : p.1 = f
      · simp [List.filter_cons, hl, List.find?_cons, hp, hf]
      · simpa [List.filter_cons, hl, List.find?_cons, hp] using ih

theorem mem_cols_remove_leakage (t : Table) (f : String) :
    f ∈ (remove_leakage_features t).cols ↔ f ∈ t.cols ∧ f ∉ leakage_features := by
  simp [remove_leakage_features, List.mem_filter]

theorem cols_dedupStage (t : Table) : (dedupStage t).1.cols = t.cols := by
  simp only [dedupStage]
  by_cases h : "kepoi_name" ∈ t.cols <;> simp [h, drop_duplicates_kepoi]

theorem rows_dedupStage_sublist (t : Table) :
    (dedupStage t).1.rows.Sublist t.rows := by
  simp only [dedupStage]
  by_cases h : "kepoi_name" ∈ t.cols
  · simpa [h] using dedup_rows_sublist t
  · simp [h]

theorem eq_of_idx_nodup (l : List Row) (hnd : (l.map Row.idx).Nodup)
    (r r' : Row) (hr : r ∈ l) (hr' : r' ∈ l) (h : r.idx = r'.idx) : r = r' :=
  List.inj_on_of_nodup_map hnd hr hr' h

/-! ### Branch shapes of the orchestrator -/

/-- The already-preprocessed branch: selection only, nothing removed. -/
theorem preprocess_pre_branch (L : ℚ → ℚ) (t : Table) (s : Stats)
    (h0 : t.rows ≠ [])
    (hdet : is_already_preprocessed (normalize_column_names t) = true)
    (hval : (validate_required_features (normalize_column_names t)
      required_features).1 = true) :
    preprocess_csv L t s =
      ⟨true, t.rows.length,
       (select_features (normalize_column_names t)).rows.length, 0, [],
       ["CSV detected as pre-processed (log-transformed). Skipping normalization and transformations."],
       some (select_features (normalize_column_names t))⟩ := by
  have hne : t.rows.isEmpty = false := by
    simpa [List.isEmpty_iff] using h0
  simp [preprocess_csv, hne, hdet, hval]

/-- The raw branch: the full stage chain runs. -/
theorem preprocess_raw_branch (L : ℚ → ℚ) (t : Table) (s : Stats)
    (h0 : t.rows ≠ [])
    (hdet : is_already_preprocessed (normalize_column_names t) = false)
    (hval : (validate_required_features (normalize_column_names t)
      required_features).1 = true) :
    preprocess_csv L t s =
      ⟨true, t.rows.length,
       (rawPipeline L (normalize_column_names t) s).1.rows.length,
       t.rows.length - (rawPipeline L (normalize_column_names t) s).1.rows.length,
       (rawPipeline L (normalize_column_names t) s).2.1,
       (rawPipeline L (normalize_column_names t) s).2.2,
       some (rawPipeline L (normalize_column_names t) s).1⟩ := by
  have hne : t.rows.isEmpty = false := by
    simpa [List.isEmpty_iff] using h0
  simp [preprocess_csv, hne, hdet, hval]

/-- A successful run implies a non-empty input whose (normalized) columns
contain every required feature. -/
theorem preprocess_success_shape (L : ℚ → ℚ) (t : Table) (s : Stats)
    (h : (preprocess_csv L t s).success = true) :
    t.rows ≠ [] ∧
    (validate_required_features (normalize_column_names t)
      required_features).1 = true := by
  by_cases h0 : t.rows.isEmpty
  · simp [preprocess_csv, h0, failResult] at h
  · refine ⟨by simpa [List.isEmpty_iff] using h0, ?_⟩
    by_cases hval : (validate_required_features (normalize_column_names t)
        required_features).1 = true
    · exact hval
    · by_cases hdet : is_already_preprocessed (normalize_column_names t) <;>
        simp [preprocess_csv, h0, hdet, hval, failResult] at h

/-- `logFold_spec` read off at the pipeline stage. -/
theorem apply_log_transforms_spec (L : ℚ → ℚ) (t : Table) (s : Stats)
    (hnd : s.log_transform_features.Nodup) :
    ∃ g : Row → Row,
      (apply_log_transforms L t s).rows = t.rows.map g ∧
      (∀ c, c ∈ (apply_log_transforms L t s).cols ↔ c ∈ t.cols) ∧
      ∀ r ∈ t.rows, (g r).idx = r.idx ∧
        ∀ f, getVal (g r) f =
          if f ∈ s.log_transform_features ∧ f ∈ t.cols ∧
              ¬ t.rows.countP (fun r0 => oPos (getVal r0 f)) = 0 then
            logCell L (getVal r f)
          else getVal r f :=
  logFold_spec L s.log_transform_features hnd t

/-! ### Claim theorems -/

/-- C7: under the default reference statistics (`koi_period` valid range
`(0.2, 730]`) the physical-plausibility filter rejects a row with
`koi_period = 0.2`, retains `0.2000001`, retains `730`, and rejects
`730.0001`: the lower bound is exclusive and the upper bound inclusive.
Rows 0-3 of `tC7` carry exactly those four values; rows 1 and 2 survive and
rows 0 and 3 are dropped with a period-range error each. -/
theorem C7_period_bounds :
    defaultStats.valid_ranges.koi_period = (1/5, 730) ∧
    getVal (mkRow 0 [("koi_period", some (1/5))]) "koi_period" = some (1/5) ∧
    idxList (validate_physical_ranges tC7 defaultStats).1 = [1, 2] ∧
    (validate_physical_ranges tC7 defaultStats).2 =
      [((0 : Int), "koi_period out of range"),
       ((3 : Int), "koi_period out of range")] := by
  decide

/-- The detector's fold, started from any accumulator, adds the number of
voting features to the first counter and the number of participating features
to the second. -/
theorem detectorCounts_go (t : Table) (l : List String) (a b : Nat) :
    l.foldl (detectorStep t) (a, b) =
      (a + (l.filter (fun f =>
          (decide (f ∈ t.cols) && !(colValues t f).isEmpty) &&
            votesTransformed f (colValues t f))).length,
       b + (l.filter (fun f =>
          decide (f ∈ t.cols) && !(colValues t f).isEmpty)).length) := by
  induction l generalizing a b with
  | nil => simp
  | cons f fs ih =>
    rw [List.foldl_cons]
    by_cases hc : f ∈ t.cols
    · by_cases hv : colValues t f = []
      · have hstep : detectorStep t (a, b) f = (a, b) := by
          simp [detectorStep, hc, hv]
        have h2 : (decide (f ∈ t.cols) && !(colValues t f).isEmpty) = false := by
          simp [hv]
        rw [hstep, ih]
        simp [List.filter_cons, h2]
      · have hne : (colValues t f).isEmpty = false := by
          simpa [List.isEmpty_iff] using hv
        have h2 : (decide (f ∈ t.cols) && !(colValues t f).isEmpty) = true := by
          simp [hc, hne]
        by_cases hvote : votesTransformed f (colValues t f) = true
        · have hstep : detectorStep t (a, b) f = (a + 1, b + 1) := by
            simp [detectorStep, hc, hv, hvote]
          rw [hstep, ih]
          simp [List.filter_cons, hc, hne, hvote, Prod.mk.injEq]
          omega
        · have hvote' : votesTransformed f (colValues t f) = false := by
            simpa using hvote
          have hstep : detectorStep t (a, b) f = (a, b + 1) := by
            simp [detectorStep, hc, hv, hvote']
          rw [hstep, ih]
          simp [List.filter_cons, hc, hne, hvote', Prod.mk.injEq]
          omega
    · have hstep : detectorStep t (a, b) f = (a, b) := by
        simp [detectorStep, hc]
      have h2 : (decide (f ∈ t.cols) && !(colValues t f).isEmpty) = false := by
        simp [hc]
      have h1 : (decide (f ∈ t.cols) && !(colValues t f).isEmpty &&
          votesTransformed f (colValues t f)) = false := by
        simp [hc]
      rw [hstep, ih]
      simp [List.filter_cons, h1, h2]

/-- The detector's counters are exactly the vote/participant tallies. -/
theorem detectorCounts_eq (t : Table) :
    detectorCounts t =
      ((votingFeatures t).length, (participatingFeatures t).length) := by
  rw [detectorCounts, detectorCounts_go]
  simp only [votingFeatures, participatingFeatures, List.filter_filter,
    Nat.zero_add, Prod.mk.injEq]
  constructor
  · congr 1
    refine List.filter_congr ?_
    intro a _
    exact Bool.and_comm _ _
  · trivial

/-- C9: the format detector is a pure function of the table returning
"already transformed" iff the fraction of participating log-transform
features (present with at least one non-missing value) whose observed
min/max both lie inside the calibrated transformed-range is at least 1/2;
with zero participating features it returns "raw". -/
theorem C9_format_detector (t : Table) :
    is_already_preprocessed t = true ↔
      participatingFeatures t ≠ [] ∧
      (1 : ℚ)/2 ≤
        ((votingFeatures t).length : ℚ) / ((participatingFeatures t).length : ℚ) := by
  simp only [is_already_preprocessed, detectorCounts_eq]
  by_cases hz : (participatingFeatures t).length = 0
  · have hnil : participatingFeatures t = [] := List.length_eq_zero.mp hz
    simp [hz, hnil]
  · have hnil : participatingFeatures t ≠ [] := by
      intro h
      exact hz (by simp [h])
    simp [hz, hnil]

/-- A row surviving `dedupRows` has a key outside `seen`, and is the first
row of the input list carrying its key. -/
theorem dedupRows_spec_first (l : List Row) (seen : List Cell) (r : Row)
    (hr : r ∈ dedupRows l seen) :
    getVal r "kepoi_name" ∉ seen ∧
    l.find? (fun r0 =>
      decide (getVal r0 "kepoi_name" = getVal r "kepoi_name")) = some r := by
  induction l generalizing seen with
  | nil => simp [dedupRows] at hr
  | cons r0 rest ih =>
    simp only [dedupRows] at hr
    by_cases hk : getVal r0 "kepoi_name" ∈ seen
    · rw [if_pos hk] at hr
      obtain ⟨hns, hfind⟩ := ih seen hr
      have hne : ¬ (getVal r0 "kepoi_name" = getVal r "kepoi_name") := by
        intro h
        exact hns (h ▸ hk)
      refine ⟨hns, ?_⟩
      rw [List.find?_cons_of_neg _ (by simpa using hne)]
      exact hfind
    · rw [if_neg hk] at hr
      rcases List.mem_cons.mp hr with rfl | hr'
      · exact ⟨hk, by rw [List.find?_cons_of_pos _ (by simp)]⟩
      · obtain ⟨hns, hfind⟩ := ih _ hr'
        have hns' : getVal r "kepoi_name" ∉ seen :=
          fun h => hns (List.mem_cons_of_mem _ h)
        have hne : ¬ (getVal r0 "kepoi_name" = getVal r "kepoi_name") := by
          intro h
          exact hns (h ▸ List.mem_cons_self _ _)
        refine ⟨hns', ?_⟩
        rw [List.find?_cons_of_neg _ (by simpa using hne)]
        exact hfind

/-- Every input row's key is either already in `seen` or represented among
the survivors of `dedupRows`. -/
theorem dedupRows_covers (l : List Row) (seen : List Cell) (r : Row)
    (hr : r ∈ l) :
    getVal r "kepoi_name" ∈ seen ∨
    ∃ r1 ∈ dedupRows l seen,
      getVal r1 "kepoi_name" = getVal r "kepoi_name" := by
  induction l generalizing seen with
  | nil => simp at hr
  | cons r0 rest ih =>
    simp only [dedupRows]
    by_cases hk : getVal r0 "kepoi_name" ∈ seen
    · rw [if_pos hk]
      rcases List.mem_cons.mp hr with rfl | hr'
      · exact Or.inl hk
      · exact ih seen hr'
    · rw [if_neg hk]
      rcases List.mem_cons.mp hr with rfl | hr'
      · exact Or.inr ⟨r, List.mem_cons_self _ _, rfl⟩
      · rcases ih (getVal r0 "kepoi_name" :: seen) hr' with h | ⟨r1, h1, h2⟩
        · rcases List.mem_cons.mp h with heq | hseen
          · exact Or.inr ⟨r0, List.mem_cons_self _ _, heq.symm⟩
          · exact Or.inl hseen
        · exact Or.inr ⟨r1, List.mem_cons_of_mem _ h1, h2⟩

/-- C4 (amended): the duplicate-resolution stage keeps, for each occurring
`kepoi_name` value, exactly the first-occurring row of the table — the
survivor is independent of `koi_model_snr`.  (The claim's tie-break on the
greatest `koi_model_snr` does not hold; see the counterexample.) -/
theorem C4_dedup_keeps_first (t : Table) :
    (∀ r ∈ (drop_duplicates_kepoi t).rows,
      t.rows.find? (fun r0 =>
        decide (getVal r0 "kepoi_name" = getVal r "kepoi_name")) = some r) ∧
    (∀ r ∈ t.rows, ∃ r1 ∈ (drop_duplicates_kepoi t).rows,
      getVal r1 "kepoi_name" = getVal r "kepoi_name") := by
  constructor
  · intro r hr
    exact (dedupRows_spec_first t.rows [] r hr).2
  · intro r hr
    rcases dedupRows_covers t.rows [] r hr with h | h
    · simp at h
    · exact h

/-- C4 counterexample: on `tC4` the stage keeps row 0 (`koi_model_snr = 5`),
not its sibling row 1 with the greater `koi_model_snr = 10`, refuting the
claimed greatest-SNR tie-break. -/
theorem C4_counterexample :
    (drop_duplicates_kepoi tC4).rows =
      [mkRow 0 [("kepoi_name", some 1), ("koi_model_snr", some 5)]] ∧
    mkRow 1 [("kepoi_name", some 1), ("koi_model_snr", some 10)] ∈ tC4.rows ∧
    getVal (mkRow 1 [("kepoi_name", some 1), ("koi_model_snr", some 10)])
        "kepoi_name" =
      getVal (mkRow 0 [("kepoi_name", some 1), ("koi_model_snr", some 5)])
        "kepoi_name" ∧
    getVal (mkRow 0 [("kepoi_name", some 1), ("koi_model_snr", some 5)])
        "koi_model_snr" = some 5 ∧
    getVal (mkRow 1 [("kepoi_name", some 1), ("koi_model_snr", some 10)])
        "koi_model_snr" = some 10 ∧
    (5 : ℚ) < 10 := by
  decide

/-- C4 witness: the survivor of `tC4` is the first row with its key. -/
theorem C4_witness :
    tC4.rows.find? (fun r0 =>
      decide (getVal r0 "kepoi_name" =
        getVal (mkRow 0 [("kepoi_name", some 1), ("koi_model_snr", some 5)])
          "kepoi_name")) =
      some (mkRow 0 [("kepoi_name", some 1), ("koi_model_snr", some 5)]) :=
  (C4_dedup_keeps_first tC4).1
    (mkRow 0 [("kepoi_name", some 1), ("koi_model_snr", some 5)])
    (by decide)

/-- C6 (amended): for a present log-transform feature whose column has at
least one strictly positive entry, the transform stage maps each row in
place (no row dropped, indices preserved, same column name), replacing the
cell by `logCell`: strictly positive entries become their base-10 log and
non-positive entries become missing.  A present feature with no strictly
positive entry is skipped entirely and its cells are left untouched (this
is where the claim as stated fails; see the counterexample). -/
theorem C6_magnitude_transform (L : ℚ → ℚ) (t : Table) (s : Stats)
    (hnd : s.log_transform_features.Nodup)
    (f : String) (hf : f ∈ s.log_transform_features) (hc : f ∈ t.cols) :
    ∃ g : Row → Row,
      (apply_log_transforms L t s).rows = t.rows.map g ∧
      (apply_log_transforms L t s).rows.length = t.rows.length ∧
      f ∈ (apply_log_transforms L t s).cols ∧
      ∀ r ∈ t.rows, (g r).idx = r.idx ∧
        getVal (g r) f =
          if t.rows.countP (fun r0 => oPos (getVal r0 f)) ≠ 0 then
            logCell L (getVal r f)
          else getVal r f := by
  obtain ⟨g, hrows, hcols, hspec⟩ := apply_log_transforms_spec L t s hnd
  refine ⟨g, hrows, by rw [hrows]; simp, (hcols f).mpr hc, ?_⟩
  intro r hr
  obtain ⟨hidx, hval⟩ := hspec r hr
  refine ⟨hidx, ?_⟩
  rw [hval f]
  by_cases hz : t.rows.countP (fun r0 => oPos (getVal r0 f)) = 0 <;>
    simp [hf, hc, hz]

/-- C6 counterexample: `koi_period` is a present log-transform feature, its
only entry `-5` is non-positive, yet the stage leaves the table unchanged —
the non-positive entry stays `-5` instead of becoming missing (the
`mask.sum() == 0` guard skips a column with no positive values). -/
theorem C6_counterexample :
    "koi_period" ∈ defaultStats.log_transform_features ∧
    "koi_period" ∈ tC6.cols ∧
    mkRow 0 [("koi_period", some (-5))] ∈ tC6.rows ∧
    apply_log_transforms (fun _ => 0) tC6 defaultStats = tC6 ∧
    getVal (mkRow 0 [("koi_period", some (-5))]) "koi_period" = some (-5) := by
  decide

/-- C6 witness: on a column with a positive entry the stage maps both rows
(none dropped) — `100 ↦ log10 100 = 2`, `-5 ↦` missing. -/
theorem C6_witness :
    (apply_log_transforms (fun _ => 2) tC6w defaultStats).rows.length = 2 ∧
    apply_log_transforms (fun _ => 2) tC6w defaultStats =
      ⟨["koi_period"],
       [mkRow 0 [("koi_period", some 2)], mkRow 1 [("koi_period", none)]]⟩ := by
  constructor
  · obtain ⟨g, hrows, hlen, hcol, hspec⟩ :=
      C6_magnitude_transform (fun _ => 2) tC6w defaultStats (by decide)
        "koi_period" (by decide) (by decide)
    exact hlen
  · decide

/-- C8 (amended): the cross-feature constraint is evaluated only when both
`koi_prad` and `koi_srad` are present columns — with `koi_srad` absent the
cross check itself never fails a row.  The claim's row `koi_prad = 1000`,
`koi_srad = 1` is rejected (with a cross-feature error), but the same row
with `koi_srad` missing is still rejected — by the `koi_prad` range check
`[0.5, 30]` — not retained as claimed.  A row violating only the cross
constraint (`koi_prad = 20`, `koi_srad = 0.1`) is rejected when both are
present and retained when `koi_srad` is absent. -/
theorem C8_cross_feature_skip :
    (∀ t : Table, "koi_srad" ∉ t.cols → ∀ r : Row, invCross t r = false) ∧
    idxList (validate_physical_ranges tC8both defaultStats).1 = [] ∧
    ((0 : Int), "koi_prad > koi_srad (planet larger than star)") ∈
      (validate_physical_ranges tC8both defaultStats).2 ∧
    idxList (validate_physical_ranges tC8claim defaultStats).1 = [] ∧
    (validate_physical_ranges tC8claim defaultStats).2 =
      [((0 : Int), "koi_prad out of range")] ∧
    idxList (validate_physical_ranges tC8a defaultStats).1 = [] ∧
    (validate_physical_ranges tC8a defaultStats).2 =
      [((0 : Int), "koi_prad > koi_srad (planet larger than star)")] ∧
    idxList (validate_physical_ranges tC8b defaultStats).1 = [0] ∧
    (validate_physical_ranges tC8b defaultStats).2 = [] := by
  refine ⟨?_, ?_⟩
  · intro t ht r
    simp [invCross, ht]
  · decide

/-- C8 counterexample: the row `koi_prad = 1000` with `koi_srad` absent is
not retained — the filter still rejects it through the radius range check. -/
theorem C8_counterexample :
    mkRow 0 [("koi_prad", some 1000)] ∈ tC8claim.rows ∧
    "koi_srad" ∉ tC8claim.cols ∧
    idxList (validate_physical_ranges tC8claim defaultStats).1 = [] := by
  decide

/-- C8 witness: with `koi_srad` absent the cross check marks no row. -/
theorem C8_witness :
    invCross tC8claim (mkRow 0 [("koi_prad", some 1000)]) = false :=
  C8_cross_feature_skip.1 tC8claim (by decide)
    (mkRow 0 [("koi_prad", some 1000)])

/-- The imputer's effect on one optional feature column: every missing entry
of a surviving row is filled with the frozen median from the artifact, every
other entry is untouched. -/
theorem impute_fill_column (s : Stats) (t : Table) (f : String) (m : ℚ)
    (hf : f ∈ optional_features) (hm : s.medians.lookup f = some m)
    (hc : f ∈ t.cols) :
    (impute_missing_values t required_features optional_features s).1.rows.map
        (fun r => getVal r f) =
      (dropnaRequired t required_features).rows.map
        (fun r => if getVal r f = none then some m else getVal r f) := by
  obtain ⟨g, hrows, hcols, hspec⟩ :=
    imputeFill_spec optional_features s (dropnaRequired t required_features)
  simp only [impute_missing_values]
  rw [hrows, List.map_map]
  refine List.map_congr_left ?_
  intro r hr
  obtain ⟨hidx, hval⟩ := hspec r hr
  have hcd : f ∈ (dropnaRequired t required_features).cols := hc
  simp only [Function.comp_apply]
  rw [hval f]
  by_cases hn : getVal r f = none
  · rw [if_pos ⟨hf, hcd, hn⟩, hm, if_pos hn]
  · rw [if_neg (fun hcon => hn hcon.2.2), if_neg hn]

/-- C5: imputation is a pure function of the row and the frozen statistics
artifact.  For two arbitrary batches sharing the artifact, a missing optional
feature is filled with the same frozen median `m` in both — the value of the
imputed column is `median-if-missing, unchanged otherwise` in each batch,
independent of either batch's own value distribution.  (Run-to-run
determinism is definitional: the stage is a function of the table and the
artifact alone.) -/
theorem C5_frozen_imputation (s : Stats) (t1 t2 : Table) (f : String) (m : ℚ)
    (hf : f ∈ optional_features) (hm : s.medians.lookup f = some m)
    (h1 : f ∈ t1.cols) (h2 : f ∈ t2.cols) :
    ((impute_missing_values t1 required_features optional_features s).1.rows.map
        (fun r => getVal r f) =
      (dropnaRequired t1 required_features).rows.map
        (fun r => if getVal r f = none then some m else getVal r f)) ∧
    ((impute_missing_values t2 required_features optional_features s).1.rows.map
        (fun r => getVal r f) =
      (dropnaRequired t2 required_features).rows.map
        (fun r => if getVal r f = none then some m else getVal r f)) :=
  ⟨impute_fill_column s t1 f m hf hm h1,
   impute_fill_column s t2 f m hf hm h2⟩

/-- C5 witness: batches `tC5a` and `tC5b` have very different `koi_teq`
distributions, yet both missing entries are filled with the same frozen
median 42 from `stats5`. -/
theorem C5_witness :
    (impute_missing_values tC5a required_features optional_features
        stats5).1.rows.map (fun r => getVal r "koi_teq") =
      [some 42, some 7] ∧
    (impute_missing_values tC5b required_features optional_features
        stats5).1.rows.map (fun r => getVal r "koi_teq") =
      [some 1000, some 42] := by
  have h := C5_frozen_imputation stats5 tC5a tC5b "koi_teq" 42
    (by decide) (by decide) (by decide) (by decide)
  constructor
  · rw [h.1]
    decide
  · rw [h.2]
    decide

/-! ### The raw-branch chain: row accounting and error origins -/

theorem idxList_length (t : Table) : (idxList t).length = t.rows.length :=
  List.length_map t.rows Row.idx

theorem idx_subset_of_rows_sublist (l1 l2 : List Row)
    (h : l1.Sublist l2) : l1.map Row.idx ⊆ l2.map Row.idx :=
  (h.map Row.idx).subset

theorem idxList_impute (t : Table) (req opt : List String) (s : Stats) :
    idxList (impute_missing_values t req opt s).1 =
      idxList (dropnaRequired t req) := by
  simp [impute_missing_values, idxList_imputeFill]

/-- Row accounting for the raw stage chain on an arbitrary (normalized)
table `u`: the output is no longer than the input, and every index that
disappears is either cited in the accumulated errors or was removed by the
duplicate-resolution stage. -/
theorem raw_chain_conservation (L : ℚ → ℚ) (u : Table) (s : Stats) :
    (rawPipeline L u s).1.rows.length ≤ u.rows.length ∧
    ∀ i ∈ idxList u, i ∉ idxList (rawPipeline L u s).1 →
      ((∃ m, ((i : Int), m) ∈ (rawPipeline L u s).2.1) ∨
       ("kepoi_name" ∈ (remove_leakage_features u).cols ∧
        i ∉ idxList (drop_duplicates_kepoi (remove_leakage_features u)))) := by
  set A := remove_leakage_features u with hA
  set D := (dedupStage A).1 with hD
  set P := validate_physical_ranges D s with hP
  set I := impute_missing_values P.1 required_features optional_features s
    with hI
  set T5 := apply_log_transforms L I.1 s with hT5
  set O := remove_extreme_outliers T5 all_features with hO
  have e1 : (rawPipeline L u s).1 = select_features O.1 := rfl
  have e2 : (rawPipeline L u s).2.1 = P.2 ++ I.2 ++ O.2 := rfl
  have lA : A.rows.length = u.rows.length := by
    rw [← idxList_length, ← idxList_length, hA, idxList_remove_leakage]
  have lD : D.rows.length ≤ A.rows.length := by
    rw [hD]
    exact (rows_dedupStage_sublist A).length_le
  have lP : P.1.rows.length ≤ D.rows.length := by
    rw [hP]
    exact (phys_rows_sublist D s).length_le
  have lI : I.1.rows.length ≤ P.1.rows.length := by
    have h := (imputed_rows_sublist_idx P.1 required_features
      optional_features s).length_le
    rw [idxList_length, idxList_length] at h
    rw [hI]
    exact h
  have lT : T5.rows.length = I.1.rows.length := by
    rw [← idxList_length, ← idxList_length, hT5, idxList_apply_log_transforms]
  have lO : O.1.rows.length ≤ T5.rows.length := by
    rw [hO]
    exact (outlier_rows_sublist T5 all_features).length_le
  have lS : (select_features O.1).rows.length = O.1.rows.length := by
    rw [← idxList_length, ← idxList_length, idxList_select]
  constructor
  · rw [e1]
    omega
  · intro i hi hiout
    rw [e1, idxList_select] at hiout
    have hiA : i ∈ idxList A := by
      rw [hA, idxList_remove_leakage]
      exact hi
    have chain : i ∈ idxList D →
        (∃ m, ((i : Int), m) ∈ (rawPipeline L u s).2.1) := by
      intro hiD
      by_cases hiP : i ∈ idxList P.1
      · by_cases hiI : i ∈ idxList I.1
        · have hiT5 : i ∈ idxList T5 := by
            rw [hT5, idxList_apply_log_transforms]
            exact hiI
          obtain ⟨m, hm⟩ :=
            outlier_removed_has_error T5 all_features i hiT5 hiout
          refine ⟨m, ?_⟩
          rw [e2]
          exact List.mem_append.mpr (Or.inr hm)
        · obtain ⟨m, hm⟩ := impute_removed_has_error P.1 required_features
            optional_features s i hiP hiI
          refine ⟨m, ?_⟩
          rw [e2]
          exact List.mem_append.mpr (Or.inl (List.mem_append.mpr (Or.inr hm)))
      · obtain ⟨m, hm⟩ := phys_removed_has_error D s i hiD hiP
        refine ⟨m, ?_⟩
        rw [e2]
        exact List.mem_append.mpr (Or.inl (List.mem_append.mpr (Or.inl hm)))
    by_cases hkep : "kepoi_name" ∈ A.cols
    · have hDdef : D = drop_duplicates_kepoi A := by
        rw [hD]
        simp [dedupStage, hkep]
      by_cases hiD : i ∈ idxList D
      · exact Or.inl (chain hiD)
      · refine Or.inr ⟨hkep, ?_⟩
        rw [← hDdef]
        exact hiD
    · have hDdef : D = A := by
        rw [hD]
        simp [dedupStage, hkep]
      exact Or.inl (chain (by rw [hDdef]; exact hiA))

/-- Error origin for the raw stage chain: every accumulated error cites a
load-time index of a row of the input table `u`. -/
theorem raw_chain_origin (L : ℚ → ℚ) (u : Table) (s : Stats) :
    ∀ e ∈ (rawPipeline L u s).2.1, 0 ≤ e.1 ∧ e.1.toNat ∈ idxList u := by
  set A := remove_leakage_features u with hA
  set D := (dedupStage A).1 with hD
  set P := validate_physical_ranges D s with hP
  set I := impute_missing_values P.1 required_features optional_features s
    with hI
  set T5 := apply_log_transforms L I.1 s with hT5
  set O := remove_extreme_outliers T5 all_features with hO
  have e2 : (rawPipeline L u s).2.1 = P.2 ++ I.2 ++ O.2 := rfl
  have hDA : idxList D ⊆ idxList A := by
    rw [hD]
    exact idx_subset_of_rows_sublist _ _ (rows_dedupStage_sublist A)
  have hAu : idxList A = idxList u := by
    rw [hA, idxList_remove_leakage]
  have hPD : idxList P.1 ⊆ idxList D := by
    rw [hP]
    exact idx_subset_of_rows_sublist _ _ (phys_rows_sublist D s)
  have finish : ∀ (j : Nat), j ∈ idxList D →
      0 ≤ ((j : Int), "").1 ∧ ((j : Int), "").1.toNat ∈ idxList u := by
    intro j hj
    refine ⟨Int.natCast_nonneg j, ?_⟩
    simp only [Int.toNat_natCast]
    rw [← hAu]
    exact hDA hj
  intro e he
  rw [e2] at he
  rcases List.mem_append.mp he with he1 | heO
  · rcases List.mem_append.mp he1 with heP | heI
    · obtain ⟨r, hr, hre⟩ := phys_errors_origin D s e heP
      have hj : r.idx ∈ idxList D := List.mem_map_of_mem Row.idx hr
      rw [hre]
      exact finish r.idx hj
    · obtain ⟨r, hr, hre⟩ := impute_errors_origin P.1 required_features
        optional_features s e heI
      have hj : r.idx ∈ idxList P.1 := List.mem_map_of_mem Row.idx hr
      rw [hre]
      exact finish r.idx (hPD hj)
  · obtain ⟨r, hr, hre⟩ := outlier_errors_origin T5 all_features e heO
    have hj : r.idx ∈ idxList T5 := List.mem_map_of_mem Row.idx hr
    have hj2 : r.idx ∈ idxList I.1 := by
      rw [hT5, idxList_apply_log_transforms] at hj
      exact hj
    have hj3 : r.idx ∈ idxList P.1 := by
      rw [hI, idxList_impute] at hj2
      exact idx_subset_of_rows_sublist _ _ (List.filter_sublist P.1.rows) hj2
    rw [hre]
    exact finish r.idx (hPD hj3)

/-- C3 (amended): on every successful run,
`processed_rows + removed_rows = original_rows`; and every input row index
absent from the output table either is cited by at least one entry of
`errors` or was removed by the duplicate-resolution stage (which reports
only a warning — this is where the claim as stated fails; see the
counterexample). -/
theorem C3_row_conservation (L : ℚ → ℚ) (t : Table) (s : Stats)
    (h : (preprocess_csv L t s).success = true) :
    (preprocess_csv L t s).processed_rows + (preprocess_csv L t s).removed_rows =
      (preprocess_csv L t s).original_rows ∧
    ∀ i ∈ idxList t, ∀ out, (preprocess_csv L t s).output = some out →
      i ∉ idxList out →
      ((∃ m, ((i : Int), m) ∈ (preprocess_csv L t s).errors) ∨
       ("kepoi_name" ∈ (remove_leakage_features (normalize_column_names t)).cols ∧
        i ∉ idxList (drop_duplicates_kepoi
          (remove_leakage_features (normalize_column_names t))))) := by
  obtain ⟨h0, hval⟩ := preprocess_success_shape L t s h
  by_cases hdet : is_already_preprocessed (normalize_column_names t) = true
  · rw [preprocess_pre_branch L t s h0 hdet hval]
    refine ⟨?_, ?_⟩
    · show (select_features (normalize_column_names t)).rows.length + 0 =
        t.rows.length
      rw [Nat.add_zero, ← idxList_length, idxList_select, idxList_normalize,
        idxList_length]
    · intro i hi out hout hiout
      exfalso
      apply hiout
      have : out = select_features (normalize_column_names t) :=
        (Option.some.inj hout).symm
      rw [this, idxList_select, idxList_normalize]
      exact hi
  · have hdetf : is_already_preprocessed (normalize_column_names t) = false := by
      simpa using hdet
    rw [preprocess_raw_branch L t s h0 hdetf hval]
    obtain ⟨hle, hcov⟩ := raw_chain_conservation L (normalize_column_names t) s
    refine ⟨?_, ?_⟩
    · show (rawPipeline L (normalize_column_names t) s).1.rows.length +
        (t.rows.length -
          (rawPipeline L (normalize_column_names t) s).1.rows.length) =
        t.rows.length
      have hn : (normalize_column_names t).rows.length = t.rows.length := by
        rw [← idxList_length, idxList_normalize, idxList_length]
      omega
    · intro i hi out hout hiout
      have houteq : out = (rawPipeline L (normalize_column_names t) s).1 :=
        (Option.some.inj hout).symm
      have hi' : i ∈ idxList (normalize_column_names t) := by
        rw [idxList_normalize]
        exact hi
      have hiout' : i ∉ idxList (rawPipeline L (normalize_column_names t) s).1 := by
        rw [← houteq]
        exact hiout
      exact hcov i hi' hiout'

/-- C3 counterexample: `tC3` holds two identical valid rows sharing a
`kepoi_name`; the run succeeds, one row is removed (as a duplicate), yet
`errors` is empty — duplicate removal produces only a warning, so the
claimed error coverage of every removed row fails. -/
theorem C3_counterexample :
    (preprocess_csv (fun _ => 0) tC3 defaultStats).success = true ∧
    (preprocess_csv (fun _ => 0) tC3 defaultStats).original_rows = 2 ∧
    (preprocess_csv (fun _ => 0) tC3 defaultStats).processed_rows = 1 ∧
    (preprocess_csv (fun _ => 0) tC3 defaultStats).removed_rows = 1 ∧
    (preprocess_csv (fun _ => 0) tC3 defaultStats).errors = [] ∧
    idxList ((preprocess_csv (fun _ => 0) tC3 defaultStats).output.getD
      ⟨[], []⟩) = [0] := by
  decide

/-- C3 witness: a successful concrete run satisfies the row-count identity. -/
theorem C3_witness :
    (preprocess_csv (fun _ => 0) tC3w defaultStats).processed_rows +
      (preprocess_csv (fun _ => 0) tC3w defaultStats).removed_rows =
      (preprocess_csv (fun _ => 0) tC3w defaultStats).original_rows :=
  (C3_row_conservation (fun _ => 0) tC3w defaultStats
    (by decide)).1

/-- C10: on every successful run, every per-row error entry emitted by any
stage (physical-range validation, required-feature check, outlier
suppression) carries a non-negative row index equal to the load-time index
of a row of the originally loaded table, no matter how many rows earlier
stages removed. -/
theorem C10_error_indices (L : ℚ → ℚ) (t : Table) (s : Stats)
    (h : (preprocess_csv L t s).success = true) :
    ∀ e ∈ (preprocess_csv L t s).errors, 0 ≤ e.1 ∧ e.1.toNat ∈ idxList t := by
  obtain ⟨h0, hval⟩ := preprocess_success_shape L t s h
  by_cases hdet : is_already_preprocessed (normalize_column_names t) = true
  · rw [preprocess_pre_branch L t s h0 hdet hval]
    intro e he
    simp at he
  · have hdetf : is_already_preprocessed (normalize_column_names t) = false := by
      simpa using hdet
    rw [preprocess_raw_branch L t s h0 hdetf hval]
    intro e he
    have := raw_chain_origin L (normalize_column_names t) s e he
    rwa [idxList_normalize] at this

/-- C10 witness: in a concrete run the single error cites load-time row 1. -/
theorem C10_witness :
    0 ≤ (((1 : Int), "koi_period out of range") : Int × String).1 ∧
    (((1 : Int), "koi_period out of range") : Int × String).1.toNat ∈
      idxList tC10w :=
  C10_error_indices (fun _ => 0) tC10w defaultStats
    (by decide)
    ((1 : Int), "koi_period out of range")
    (by decide)

/-- C2 (amended): on the raw branch the required-feature strictness holds —
a (normalized) input row with a missing required value never appears in the
output table, whatever its optional features.  On the already-transformed
branch no row filtering happens at all, so the claim's
"regardless of the branch" fails; see the counterexample. -/
theorem C2_required_strict (L : ℚ → ℚ) (t : Table) (s : Stats)
    (hdet : is_already_preprocessed (normalize_column_names t) = false)
    (hsucc : (preprocess_csv L t s).success = true)
    (hnd : (idxList t).Nodup)
    (r : Row) (hr : r ∈ (normalize_column_names t).rows)
    (f : String) (hf : f ∈ required_features)
    (hmiss : getVal r f = none) :
    ∀ out, (preprocess_csv L t s).output = some out → r.idx ∉ idxList out := by
  obtain ⟨h0, hval⟩ := preprocess_success_shape L t s hsucc
  intro out hout hmem
  rw [preprocess_raw_branch L t s h0 hdet hval] at hout
  have houteq : out = (rawPipeline L (normalize_column_names t) s).1 :=
    (Option.some.inj hout).symm
  set u := normalize_column_names t with hu
  set A := remove_leakage_features u with hA
  set D := (dedupStage A).1 with hD
  set P := validate_physical_ranges D s with hP
  set I := impute_missing_values P.1 required_features optional_features s
    with hI
  set T5 := apply_log_transforms L I.1 s with hT5
  set O := remove_extreme_outliers T5 all_features with hO
  have e1 : (rawPipeline L u s).1 = select_features O.1 := rfl
  rw [houteq, e1, idxList_select] at hmem
  have hmem5 : r.idx ∈ idxList T5 :=
    idx_subset_of_rows_sublist _ _ (outlier_rows_sublist T5 all_features) hmem
  have hmemI : r.idx ∈ idxList I.1 := by
    rw [hT5, idxList_apply_log_transforms] at hmem5
    exact hmem5
  have hmemdrop : r.idx ∈ idxList (dropnaRequired P.1 required_features) := by
    rw [hI, idxList_impute] at hmemI
    exact hmemI
  simp only [idxList, dropnaRequired, List.mem_map] at hmemdrop
  obtain ⟨r3, hr3mem, hr3idx⟩ := hmemdrop
  have hr3 := List.mem_filter.mp hr3mem
  have hfu : f ∈ u.cols := validate_required_mem u required_features hval f hf
  have hfA : f ∈ A.cols :=
    (mem_cols_remove_leakage u f).mpr ⟨hfu, req_not_leakage f hf⟩
  have hfD : f ∈ D.cols := by
    rw [hD, cols_dedupStage]
    exact hfA
  have hfP : f ∈ P.1.cols := hfD
  have hsome : (getVal r3 f).isSome = true := by
    have hfmem : f ∈ required_features.filter (fun g => g ∈ P.1.cols) :=
      List.mem_filter.mpr ⟨hf, by simpa using hfP⟩
    exact List.all_eq_true.mp hr3.2 f hfmem
  have hr3D : r3 ∈ D.rows := (phys_rows_sublist D s).subset hr3.1
  have hr3A : r3 ∈ A.rows := (rows_dedupStage_sublist A).subset hr3D
  have hr3A' : ∃ r1, r1 ∈ u.rows ∧
      r3 = ⟨r1.idx, r1.vals.filter (fun p => p.1 ∉ leakage_features)⟩ := by
    rw [hA] at hr3A
    simp only [remove_leakage_features, List.mem_map] at hr3A
    obtain ⟨r1, hr1, heq⟩ := hr3A
    exact ⟨r1, hr1, heq.symm⟩
  obtain ⟨r1, hr1mem, hr3eq⟩ := hr3A'
  have hidx : r1.idx = r.idx := by
    rw [hr3eq] at hr3idx
    exact hr3idx
  have hndu : (idxList u).Nodup := by
    rw [hu, idxList_normalize]
    exact hnd
  have hr1r : r1 = r := eq_of_idx_nodup u.rows hndu r1 r hr1mem hr hidx
  subst hr1r
  have hval3 : getVal r3 f = getVal r1 f := by
    rw [hr3eq]
    exact getVal_filter_leakage r1.idx r1.vals f (req_not_leakage f hf)
  rw [hval3, hmiss] at hsome
  simp at hsome

/-- C2 counterexample: `tC2` is detected as already transformed; the run
succeeds and its output still contains row 1, whose required `koi_period`
value is missing — on the already-transformed branch no row is filtered. -/
theorem C2_counterexample :
    (preprocess_csv (fun _ => 0) tC2 defaultStats).success = true ∧
    "koi_period" ∈ required_features ∧
    mkRow 1 [("koi_period", none), ("koi_depth", some 3),
      ("koi_duration", some 5), ("koi_prad", some 1)] ∈ tC2.rows ∧
    getVal (mkRow 1 [("koi_period", none), ("koi_depth", some 3),
      ("koi_duration", some 5), ("koi_prad", some 1)]) "koi_period" = none ∧
    (preprocess_csv (fun _ => 0) tC2 defaultStats).output =
      some ⟨["koi_period", "koi_depth", "koi_duration", "koi_prad"],
        [mkRow 0 [("koi_period", some 2), ("koi_depth", some 3),
           ("koi_duration", some 5), ("koi_prad", some 1)],
         mkRow 1 [("koi_period", none), ("koi_depth", some 3),
           ("koi_duration", some 5), ("koi_prad", some 1)]]⟩ ∧
    (1 : Nat) ∈ idxList ⟨["koi_period", "koi_depth", "koi_duration", "koi_prad"],
        [mkRow 0 [("koi_period", some 2), ("koi_depth", some 3),
           ("koi_duration", some 5), ("koi_prad", some 1)],
         mkRow 1 [("koi_period", none), ("koi_depth", some 3),
           ("koi_duration", some 5), ("koi_prad", some 1)]]⟩ := by
  decide

/-- C2 witness: the raw run on `tC2w` drops row 1 (missing required
`koi_duration`): its index is absent from the output. -/
theorem C2_witness : (1 : Nat) ∉ idxList tC2wOut :=
  C2_required_strict (fun _ => 0) tC2w defaultStats
    (by decide) (by decide)
    (by decide)
    (mkRow 1 [("koi_period", some 50), ("koi_depth", some 100),
      ("koi_duration", none), ("koi_prad", some 5)])
    (by decide)
    "koi_duration" (by decide) (by decide)
    tC2wOut (by decide)

/-- C1 (amended): when the raw table is detected raw, its transform is
detected as already transformed, and the raw path's row-removing and
value-filling stages are all no-ops, both runs succeed and produce the same
output feature matrix: the transform is skipped on the already-transformed
input and applied on the raw one.  (In general the two paths differ — the
raw branch filters and imputes rows the transformed branch passes through
untouched; see the counterexample.) -/
theorem C1_detect_transform_idempotent (L : ℚ → ℚ) (t : Table) (s : Stats)
    (h0 : t.rows ≠ [])
    (hn : normalize_column_names t = t)
    (hdet : is_already_preprocessed t = false)
    (hreq : (validate_required_features t required_features).1 = true)
    (hleak : remove_leakage_features t = t)
    (hkep : "kepoi_name" ∉ t.cols)
    (hphys : validate_physical_ranges t s = (t, []))
    (himp : impute_missing_values t required_features optional_features s =
      (t, []))
    (houtl : remove_extreme_outliers (apply_log_transforms L t s) all_features =
      (apply_log_transforms L t s, []))
    (hTn : normalize_column_names (apply_log_transforms L t s) =
      apply_log_transforms L t s)
    (hTdet : is_already_preprocessed (apply_log_transforms L t s) = true)
    (hTreq : (validate_required_features (apply_log_transforms L t s)
      required_features).1 = true) :
    (preprocess_csv L (apply_log_transforms L t s) s).success = true ∧
    (preprocess_csv L t s).success = true ∧
    (preprocess_csv L (apply_log_transforms L t s) s).output =
      (preprocess_csv L t s).output := by
  have hT0 : (apply_log_transforms L t s).rows ≠ [] := by
    intro hnil
    apply h0
    have h1 : idxList (apply_log_transforms L t s) = [] := by
      rw [idxList, hnil]
      rfl
    rw [idxList_apply_log_transforms] at h1
    exact List.map_eq_nil_iff.mp h1
  have hpre := preprocess_pre_branch L (apply_log_transforms L t s) s hT0
    (by rw [hTn]; exact hTdet) (by rw [hTn]; exact hTreq)
  have hraw := preprocess_raw_branch L t s h0
    (by rw [hn]; exact hdet) (by rw [hn]; exact hreq)
  rw [hpre, hraw]
  refine ⟨rfl, rfl, ?_⟩
  show some (select_features
      (normalize_column_names (apply_log_transforms L t s))) =
    some (rawPipeline L (normalize_column_names t) s).1
  rw [hTn, hn]
  have hdd : (dedupStage t).1 = t := by
    simp [dedupStage, hkep]
  have hphys1 : (validate_physical_ranges t s).1 = t := by rw [hphys]
  have himp1 : (impute_missing_values t required_features optional_features
      s).1 = t := by rw [himp]
  have houtl1 : (remove_extreme_outliers (apply_log_transforms L t s)
      all_features).1 = apply_log_transforms L t s := by rw [houtl]
  have e1 : (rawPipeline L t s).1 =
      select_features (remove_extreme_outliers (apply_log_transforms L
        (impute_missing_values (validate_physical_ranges
          (dedupStage (remove_leakage_features t)).1 s).1
          required_features optional_features s).1 s) all_features).1 := rfl
  rw [e1, hleak, hdd, hphys1, himp1, houtl1]

/-- C1 counterexample: `traT` is exactly the pipeline's own transform of
`rawR` (anchored by `log10 100 = 2`, `log10 10000 = 4`; `select_features`
of the transform of `rawR` equals `select_features traT`).  Both runs
succeed, but the raw path rejects the sole row (`koi_prad = 100` is out of
range) while the transformed path keeps it: the output matrices differ. -/
theorem C1_counterexample :
    select_features (apply_log_transforms L1 rawR defaultStats) =
      select_features traT ∧
    L1 100 = 2 ∧ L1 10000 = 4 ∧
    (10 : ℚ) * 10 = 100 ∧ (10 : ℚ) * 10 * 10 * 10 = 10000 ∧
    (preprocess_csv L1 rawR defaultStats).success = true ∧
    (preprocess_csv L1 traT defaultStats).success = true ∧
    (preprocess_csv L1 rawR defaultStats).output ≠
      (preprocess_csv L1 traT defaultStats).output := by
  decide

/-- C1 witness: on `tC1w` every raw-branch stage is a no-op, and the
outputs of the two paths coincide. -/
theorem C1_witness :
    (preprocess_csv Lw (apply_log_transforms Lw tC1w defaultStats)
        defaultStats).output =
      (preprocess_csv Lw tC1w defaultStats).output :=
  (C1_detect_transform_idempotent Lw tC1w defaultStats
    (by decide) (by decide)
    (by decide) (by decide)
    (by decide) (by decide)
    (by decide) (by decide)
    (by decide) (by decide)
    (by decide) (by decide)).2.2

end Huntex
